import Mathlib

/-!
Verification development for the txwinrm `krb5.py` module.

The Python source is embedded shallowly:

* Python strings are Lean `String`; character-level work happens on the
  underlying `List Char` (`String.data`).
* Python `set` is `Finset String`; `dict` is an association list with unique
  keys (`List (String × α)`), looked up by `assocFind` and updated in place by
  `dictSet`; a `collections.defaultdict(set)` is read through `ddRead`, which
  inserts an empty set on a missing key exactly like the Python getitem does.
* A `KeyError` is modelled by returning `Except.error ()`.
* The managed configuration file is modelled at line granularity: `save`
  produces the list of newline-separated lines of the rendered text and
  `load` folds over those lines, exactly as the Python code writes one text
  and then iterates over its lines.
-/

set_option maxHeartbeats 1000000

namespace Txwinrm

/-- The whitespace characters removed by the Python str.strip default set. -/
def pyWs (c : Char) : Bool :=
  c = ' ' || c = '\t' || c = '\n' || c = '\r' || c = '\x0b' || c = '\x0c'

/-- str.strip on a character list: drop leading and trailing whitespace. -/
def pyStripL (l : List Char) : List Char :=
  ((l.dropWhile pyWs).reverse.dropWhile pyWs).reverse

/-- str.strip. -/
def pyStrip (s : String) : String := String.mk (pyStripL s.data)

/-- str.split with a one-character separator; empty fields are kept, and the
result is never the empty list (splitting the empty string gives one empty
field), as in Python. -/
def pySplitCharL (sep : Char) : List Char → List (List Char)
  | [] => [[]]
  | c :: cs =>
    let r := pySplitCharL sep cs
    if c = sep then [] :: r
    else
      match r with
      | [] => [[c]]
      | t :: ts => (c :: t) :: ts

/-- str.split with a one-character separator, on strings. -/
def pySplitChar (sep : Char) (s : String) : List String :=
  (pySplitCharL sep s.data).map String.mk

/-- str.startswith. -/
def pyStartsWith (pre s : String) : Bool := pre.data.isPrefixOf s.data

/-- Contiguous-sublist test on character lists. -/
def isInfixL (needle : List Char) : List Char → Bool
  | [] => needle.isEmpty
  | c :: cs => needle.isPrefixOf (c :: cs) || isInfixL needle cs

/-- Python substring membership, the `in` operator on strings. -/
def pyIn (needle hay : String) : Bool := isInfixL needle.data hay.data

/-- str.upper, restricted to the ASCII case mapping. -/
def pyUpper (s : String) : String := String.mk (s.data.map Char.toUpper)

/-- str.lower, restricted to the ASCII case mapping. -/
def pyLower (s : String) : String := String.mk (s.data.map Char.toLower)

/-!
## The delta mini-language of Config.add_kdc

Each comma-separated token is stripped and matched against the regular
expression carrying a leading `+`, `-` or `*` marker; group 2 of that match is
the remainder of the token up to (not including) the first newline, because
the dot of the regular expression does not match a newline.
-/

/-- Group 2 of the token regular expression: every character after the marker
up to the first newline. -/
def reRest (l : List Char) : List Char := l.takeWhile (fun c => !(c = '\n'))

/-- Result of scanning one delta string: hosts to add, hosts to remove, and
the admin server picked by a `*` marker (the last one wins). -/
structure DeltaParse where
  valid : List String
  remove : List String
  admin : Option String
deriving DecidableEq

/-- One iteration of the token loop in Config.add_kdc, on the stripped token
characters. -/
def parseTokenL (p : DeltaParse) : List Char → DeltaParse
  | [] => p
  | c :: rest =>
    if c = '+' then
      { p with valid := p.valid ++ [String.mk (pyStripL (reRest rest))] }
    else if c = '-' then
      { p with remove := p.remove ++ [String.mk (pyStripL (reRest rest))] }
    else if c = '*' then
      { valid := p.valid ++ [String.mk (pyStripL (reRest rest))],
        remove := p.remove,
        admin := some (String.mk (pyStripL (reRest rest))) }
    else
      { p with valid := p.valid ++ [String.mk (c :: rest)] }

/-- One iteration of the token loop in Config.add_kdc. -/
def parseToken (p : DeltaParse) (raw : String) : DeltaParse :=
  parseTokenL p (pyStripL raw.data)

/-- The whole token loop of Config.add_kdc. -/
def parseDelta (s : String) : DeltaParse :=
  (pySplitChar ',' s).foldl parseToken ⟨[], [], none⟩

/-- Python truthiness of an optional string: None and the empty string are
falsy. -/
def pyTruthyS : Option String → Bool
  | none => false
  | some s => !(s = "")

/-- The admin server actually stored by add_kdc: when no truthy `*` marker was
seen and at least one host is being added, the first added host is assumed to
be the admin server. -/
def effAdmin (p : DeltaParse) : Option String :=
  if pyTruthyS p.admin = false ∧ p.valid ≠ [] then some p.valid.headI else p.admin

/-!
## The in-memory configuration
-/

/-- In-memory state of the Config object: the defaultdict of realm KDC sets,
the plain dict of admin servers (whose stored values may be Python None,
hence `Option String`), and the include directory set. -/
structure Config where
  realms : List (String × Finset String)
  admin_servers : List (String × Option String)
  includedirs : Finset String
deriving DecidableEq

/-- Python dict lookup on an association list with unique keys. -/
def assocFind {α : Type} : List (String × α) → String → Option α
  | [], _ => none
  | (k, v) :: rest, key => if k = key then some v else assocFind rest key

/-- Python dict setitem: update the value in place when the key is present,
append the pair otherwise. -/
def dictSet {α : Type} : List (String × α) → String → α → List (String × α)
  | [], key, v => [(key, v)]
  | (k, w) :: rest, key, v =>
    if k = key then (k, v) :: rest else (k, w) :: dictSet rest key v

/-- defaultdict(set) getitem: reading a missing key inserts an empty set and
returns it.  The first component is the value read, the second the possibly
extended dict. -/
def ddRead (l : List (String × Finset String)) (key : String) :
    Finset String × List (String × Finset String) :=
  match assocFind l key with
  | some v => (v, l)
  | none => (∅, l ++ [(key, ∅)])

/-- The KDC set of a realm as observed through the defaultdict: a missing key
reads as the empty set. -/
def realmsOf (cfg : Config) (r : String) : Finset String :=
  (assocFind cfg.realms r).getD ∅

/-- The body of Config.add_kdc after the empty-delta test, applied to the
already scanned delta.  The returned Bool records whether self.save() ran (a
file write); `Except.error ()` is the uncaught KeyError raised by the
`admin_servers[realm]` read in the no-change test on a realm that has no admin
server entry.  The short-circuit of the Python `and` is modelled by testing
the two set conditions before the dict read. -/
def add_kdc_core (cfg : Config) (realm : String) (p : DeltaParse) :
    Except Unit (Config × Bool) :=
  let admin := effAdmin p
  let rd := ddRead cfg.realms realm
  let cur := rd.1
  let validS := p.valid.toFinset
  let removeS := p.remove.toFinset
  let new_kdcs := (cur \ validS) ∪ (validS \ cur)
  let bad_kdcs := cur ∩ removeS
  let cfg1 : Config := { cfg with realms := rd.2 }
  let proceed : Config :=
    { cfg1 with
      realms := dictSet rd.2 realm ((cur ∪ new_kdcs) \ bad_kdcs),
      admin_servers := dictSet cfg.admin_servers realm admin }
  if new_kdcs = ∅ ∧ bad_kdcs = ∅ then
    match assocFind cfg.admin_servers realm with
    | none => .error ()
    | some stored => if admin = stored then .ok (cfg1, false) else .ok (proceed, true)
  else .ok (proceed, true)

/-- Config.add_kdc. -/
def add_kdc (cfg : Config) (realm kdcs : String) : Except Unit (Config × Bool) :=
  if pyStrip kdcs = "" then .ok (cfg, false)
  else add_kdc_core cfg realm (parseDelta kdcs)

/-- The configuration left behind by one add_kdc call (for chaining calls in
concrete statements); a KeyError leaves the modelled state as the call built
it up to the raise, which for our uses never happens. -/
def addKdcState (cfg : Config) (realm kdcs : String) : Config :=
  match add_kdc cfg realm kdcs with
  | .ok (c, _) => c
  | .error _ => cfg

/-- The realm invariant stated by the specification: whenever a realm has a
non-empty KDC set, its admin server entry is present, is not Python None, and
names a member of that KDC set. -/
def AdminInv (cfg : Config) : Prop :=
  ∀ r : String, (realmsOf cfg r).Nonempty →
    ∃ a, assocFind cfg.admin_servers r = some (some a) ∧ a ∈ realmsOf cfg r

/-!
## Config.add_includedir up to the klist spawn

Config.add_includedir returns at once when the directory is already present;
otherwise it adds the directory, saves, resolves a klist binary from two
fixed candidate paths (None when neither exists) and hands that value to
reactor.spawnProcess as the executable.  The code has no guard for the None
case, so the modelled step records exactly which executable value reaches the
spawn call.
-/

/-- The fixed candidate install paths scanned for the klist binary. -/
def klistCandidates : List String := ["/usr/bin/klist", "/usr/kerberos/bin/klist"]

/-- What Config.add_includedir does before any process output is seen: either
the early return, or a spawn attempt carrying the resolved executable (None
when no candidate file exists) with the directory already added and saved. -/
inductive IncludedirStep where
  | noop
  | spawn (executable : Option String) (newIncludedirs : Finset String)
deriving DecidableEq

/-- Config.add_includedir up to its reactor.spawnProcess call, given the
os.path.isfile oracle. -/
def add_includedir_step (cfg : Config) (isfile : String → Bool)
    (includedir : String) : IncludedirStep :=
  if includedir ∈ cfg.includedirs then .noop
  else .spawn (klistCandidates.find? isfile) (insert includedir cfg.includedirs)

/-!
## KinitProcessProtocol
-/

/-- Protocol state: the accumulated stdout buffer, the recorded error
fragment, whether SIGKILL was sent, and the lines written to stdin. -/
structure KinitProtoState where
  data : String
  error : String
  killed : Bool
  writes : List String
deriving DecidableEq

/-- Protocol state at construction. -/
def kinitInit : KinitProtoState := ⟨"", "", false, []⟩

/-- data.split with a newline, first element: the chunk up to the first
newline. -/
def pyFirstLine (s : String) : String :=
  String.mk (s.data.takeWhile (fun c => !(c = '\n')))

/-- KinitProcessProtocol.outReceived: append the chunk to the buffer; on a
completed password prompt write the password and reset the buffer; otherwise,
on a password-expiry marker in the arriving chunk, record the first line of
the chunk as the error fragment and kill the process. -/
def outReceived (password : String) (st : KinitProtoState) (chunk : String) :
    KinitProtoState :=
  let d := st.data ++ chunk
  if pyIn "Password for" d && pyIn ":" d then
    { st with data := "", writes := st.writes ++ [password ++ "\n"] }
  else if pyIn "Password expired" chunk then
    { st with data := d, error := pyFirstLine chunk, killed := true }
  else
    { st with data := d }

/-- KinitProcessProtocol.processEnded: resolve with the recorded error
fragment, or None (success) when no fragment was recorded. -/
def processEnded (st : KinitProtoState) : Option String :=
  if st.error = "" then none else some st.error

/-!
## kinit up to the spawn
-/

/-- The fixed candidate install paths scanned for the kinit binary. -/
def kinitCandidates : List String := ["/usr/bin/kinit", "/usr/kerberos/bin/kinit"]

/-- How a kinit call begins: a missing-binary raise, a malformed-username
raise, or the go-ahead carrying the data used by the rest of the call.  Both
raises happen before the configuration merge and before any process spawn;
only the proceed constructor leads to add_includedir, add_kdc and
reactor.spawnProcess. -/
inductive KinitStep where
  | missingBinary
  | badUsername
  | proceed (binary user realm : String)
deriving DecidableEq

/-- The kinit function from its start through the username parse: resolve the
binary (raising when absent), then unpack username.split on the at sign into
exactly user and realm (raising otherwise), upper-casing the realm. -/
def kinit_pre (isfile : String → Bool) (username : String) : KinitStep :=
  match kinitCandidates.find? isfile with
  | none => .missingBinary
  | some b =>
    match pySplitChar '@' username with
    | [u, r] => .proceed b u (pyUpper r)
    | _ => .badUsername

/-!
## Path resolution: Config.get_path and Config.get_ccname

The environment is a partial map from variable names to values.  os.path.join
and os.path.dirname follow the posixpath implementations restricted to the
two-argument join (the Python multi-argument join is the left fold).
-/

/-- Whether a path ends with a slash. -/
def pyEndsSlash (a : String) : Bool :=
  match a.data.getLast? with
  | some c => c = '/'
  | none => false

/-- os.path.join for two components (posixpath). -/
def pyJoin (a b : String) : String :=
  if pyStartsWith "/" b then b
  else if a = "" then b
  else if pyEndsSlash a then a ++ b
  else a ++ "/" ++ b

/-- os.path.dirname (posixpath): everything before the last slash, with
trailing slashes stripped unless the result is all slashes. -/
def pyDirname (p : String) : String :=
  let headRev := p.data.reverse.dropWhile (fun c => !(c = '/'))
  if headRev.all (fun c => c = '/') then String.mk headRev.reverse
  else String.mk ((headRev.dropWhile (fun c => c = '/')).reverse)

/-- Config.get_path: KRB5_CONFIG override, then ZENHOME, then HOME, then the
system default /etc/krb5.conf. -/
def get_path (env : String → Option String) : String :=
  match env "KRB5_CONFIG" with
  | some p => p
  | none =>
    match env "ZENHOME" with
    | some z => pyJoin (pyJoin z "var") "krb5.conf"
    | none =>
      match env "HOME" with
      | some h => pyJoin (pyJoin h ".txwinrm") "krb5.conf"
      | none => pyJoin "/etc" "krb5.conf"

/-- Config.get_ccname: ZENHOME, then HOME, then the empty string; the
KRB5_CONFIG override is never consulted and there is no system default. -/
def get_ccname (env : String → Option String) (username : String) : String :=
  match env "ZENHOME" with
  | some z => pyJoin (pyJoin (pyJoin z "var") "krb5cc") username
  | none =>
    match env "HOME" with
    | some h => pyJoin (pyJoin (pyJoin h ".txwinrm") "krb5cc") username
    | none => ""

/-!
## The configuration file codec: Config.load and Config.save

The file text is modelled at line granularity: Config.save writes one string
whose newline-separated lines are produced here directly, and Config.load
iterates over the lines of the file, stripping each.  The regular expressions
of load are deterministic on their patterns (each greedy piece is followed by
a piece that its continuation cannot satisfy), so they are modelled by
maximal-munch scanners tried at every start position from the left, exactly
the search semantics.
-/

/-- Match, at the start of the list, the pattern: literal keyword, one or
more whitespace, equals sign, one or more whitespace, then a captured run of
one or more non-whitespace characters. -/
def matchKwAt (kw : List Char) (l : List Char) : Option (List Char) :=
  if kw.isPrefixOf l then
    let r1 := (l.drop kw.length)
    if (r1.takeWhile pyWs).isEmpty then none
    else
      match r1.dropWhile pyWs with
      | '=' :: r2 =>
        if (r2.takeWhile pyWs).isEmpty then none
        else
          let g := (r2.dropWhile pyWs).takeWhile (fun c => !(pyWs c))
          if g.isEmpty then none else some g
      | _ => none
  else none

/-- re.search for the keyword-equals-value patterns of Config.load: leftmost
start position wins. -/
def searchKw (kw : List Char) : List Char → Option (List Char)
  | [] => none
  | c :: cs =>
    match matchKwAt kw (c :: cs) with
    | some g => some g
    | none => searchKw kw cs

/-- Match, at the start of the list, the realm-open pattern: a captured run
of non-whitespace, one or more whitespace, equals sign, one or more
whitespace, then an opening brace. -/
def matchRealmOpenAt (l : List Char) : Option (List Char) :=
  let w := l.takeWhile (fun c => !(pyWs c))
  if w.isEmpty then none
  else
    let r1 := l.dropWhile (fun c => !(pyWs c))
    if (r1.takeWhile pyWs).isEmpty then none
    else
      match r1.dropWhile pyWs with
      | '=' :: r2 =>
        if (r2.takeWhile pyWs).isEmpty then none
        else
          match r2.dropWhile pyWs with
          | '\x7b' :: _ => some w
          | _ => none
      | _ => none

/-- re.search for the realm-open pattern. -/
def searchRealmOpen : List Char → Option (List Char)
  | [] => none
  | c :: cs =>
    match matchRealmOpenAt (c :: cs) with
    | some g => some g
    | none => searchRealmOpen cs

/-- Match, at the start of the list, the includedir pattern: the literal word
includedir, one literal space, then a captured run of one or more
non-whitespace characters. -/
def matchIncAt (l : List Char) : Option (List Char) :=
  if ("includedir ".data).isPrefixOf l then
    let g := (l.drop 11).takeWhile (fun c => !(pyWs c))
    if g.isEmpty then none else some g
  else none

/-- re.search for the includedir pattern. -/
def searchInc : List Char → Option (List Char)
  | [] => none
  | c :: cs =>
    match matchIncAt (c :: cs) with
    | some g => some g
    | none => searchInc cs

/-- defaultdict(set) add: insert the host into the set at the key, creating a
singleton entry when the key is missing. -/
def ddInsertK : List (String × Finset String) → String → String →
    List (String × Finset String)
  | [], key, x => [(key, {x})]
  | (k, v) :: rest, key, x =>
    if k = key then (k, insert x v) :: rest else (k, v) :: ddInsertK rest key x

/-- The loop state of Config.load plus its accumulated results. -/
structure ParseState where
  in_realms : Bool
  in_realm : Option String
  realm_kdcs : List (String × Finset String)
  realm_adminservers : List (String × Option String)
  includedirs : Finset String
deriving DecidableEq

/-- One iteration of the line loop in Config.load. -/
def parseLine (st : ParseState) (line : String) : ParseState :=
  let s := pyStrip line
  if pyStartsWith "[realms]" s then { st with in_realms := true }
  else if pyStartsWith "[" s then { st with in_realms := false }
  else if pyStartsWith "includedir" s then
    match searchInc line.data with
    | some d => { st with includedirs := insert (String.mk d) st.includedirs }
    | none => st
  else if st.in_realms then
    if s = "" then st
    else
      match searchRealmOpen s.data with
      | some n => { st with in_realm := some (String.mk n) }
      | none =>
        match st.in_realm with
        | none => st
        | some r =>
          let st1 :=
            match searchKw "kdc".data s.data with
            | some k =>
              { st with realm_kdcs := ddInsertK st.realm_kdcs r (String.mk k) }
            | none => st
          match searchKw "admin_server".data s.data with
          | some a =>
            { st1 with realm_adminservers :=
                dictSet st1.realm_adminservers r (some (String.mk a)) }
          | none => st1
  else st

/-- Config.load over the lines of the file, from the state of a fresh Config
(empty defaultdict, empty dict, includedir set as provided). -/
def load_lines (lines : List String) : ParseState :=
  lines.foldl parseLine ⟨false, none, [], [], ∅⟩

/-- Python string formatting of an admin_servers dict value (None prints as
the word None). -/
def formatAdmin : Option String → String
  | none => "None"
  | some s => s

/-- The lines of one REALM_TEMPLATE instance. -/
def renderRealmBlock (nm : String) (kdcs : Finset String)
    (adm : Option String) : List String :=
  (" " ++ nm ++ " = \x7b") ::
    ((kdcs.sort (· ≤ ·)).map (fun k => "  kdc = " ++ k) ++
      ["  admin_server = " ++ formatAdmin adm, " \x7d"])

/-- The realms_text lines of Config.save: one block per realm with a
non-empty KDC set, the admin server looked up at the upper-cased realm name
(KeyError when absent, modelled as Except.error). -/
def renderRealms (admins : List (String × Option String)) :
    List (String × Finset String) → Except Unit (List String)
  | [] => .ok []
  | (realm, kdcs) :: rest =>
    if kdcs = ∅ then renderRealms admins rest
    else
      match assocFind admins (pyUpper realm) with
      | none => .error ()
      | some adm =>
        match renderRealms admins rest with
        | .error e => .error e
        | .ok tl => .ok (renderRealmBlock (pyUpper realm) kdcs adm ++ tl)

/-- The domain_realm_text lines of Config.save. -/
def renderDomainRealms : List (String × Finset String) → List String
  | [] => []
  | (realm, kdcs) :: rest =>
    if kdcs = ∅ then renderDomainRealms rest
    else
      (" ." ++ pyLower realm ++ " = " ++ pyUpper realm) ::
        (" " ++ pyLower realm ++ " = " ++ pyUpper realm) ::
        renderDomainRealms rest

/-- The fixed lines of KRB5_CONF_TEMPLATE before the includedir block (note
the missing newline of the template joins two comment fragments into one
line). -/
def headerCommentLines : List String :=
  ["# This file is managed by the txwinrm python module.",
   "# NOTE: Any changes to the logging, libdefaults, domain_realm# sections of this file will be overwritten.",
   "#",
   ""]

/-- The fixed lines of KRB5_CONF_TEMPLATE between the includedir block and
the realms_text. -/
def boilerplateLines : List String :=
  ["",
   "[logging]",
   " default = FILE:/var/log/krb5libs.log",
   " kdc = FILE:/var/log/krb5kdc.log",
   " admin_server = FILE:/var/log/kadmind.log",
   "",
   "[libdefaults]",
   " default_realm = EXAMPLE.COM",
   " dns_lookup_realm = false",
   " dns_lookup_kdc = false",
   " ticket_lifetime = 24h",
   " renew_lifetime = 7d",
   " forwardable = true",
   "",
   "[realms]"]

/-- Config.save: the lines of the rewritten file.  confDir is the config
subdirectory beside the file that save always adds to the includedir set
before writing; the set is written in sorted order (the Python iteration
order of the set is arbitrary, and no consumer depends on it). -/
def save_lines (cfg : Config) (confDir : String) : Except Unit (List String) :=
  match renderRealms cfg.admin_servers cfg.realms with
  | .error e => .error e
  | .ok realmsText =>
    .ok (headerCommentLines ++
      ((insert confDir cfg.includedirs).sort (· ≤ ·)).map
        (fun d => "includedir " ++ d) ++
      boilerplateLines ++ realmsText ++ ["", "[domain_realm]"] ++
      renderDomainRealms cfg.realms)

/-- The realm-name and host well-formedness needed for a faithful round trip
through the textual grammar. -/
def goodName (n : String) : Prop :=
  n ≠ "" ∧ (∀ c ∈ n.data, pyWs c = false) ∧ pyUpper n = n ∧
    n.data.head? ≠ some '['

def goodHost (k : String) : Prop :=
  k ≠ "" ∧ (∀ c ∈ k.data, pyWs c = false) ∧ k.data.head? ≠ some '\x7b'

/-- Well-formedness of a configuration for the codec round trip: unique
realm and admin keys, well-formed names and hosts, the specification
invariant tying admin servers to non-empty KDC sets, admin entries for
exactly the realms with KDCs. -/
def C4WF (cfg : Config) : Prop :=
  (cfg.realms.map Prod.fst).Nodup ∧
  (cfg.admin_servers.map Prod.fst).Nodup ∧
  (∀ p ∈ cfg.realms, goodName p.1 ∧ ∀ k ∈ p.2, goodHost k) ∧
  (∀ p ∈ cfg.realms,
    (p.2 ≠ ∅ → ∃ a, assocFind cfg.admin_servers p.1 = some (some a) ∧ a ∈ p.2) ∧
    (p.2 = ∅ → assocFind cfg.admin_servers p.1 = none)) ∧
  (∀ q ∈ cfg.admin_servers, ∃ p ∈ cfg.realms, p.1 = q.1 ∧ p.2 ≠ ∅)

/-- The realm-to-admin-servers mapping that load reads back from what save
wrote, when save succeeds. -/
def roundtripAdmins (cfg : Config) (confDir : String) :
    Option (List (String × Option String)) :=
  match save_lines cfg confDir with
  | .ok t => some (load_lines t).realm_adminservers
  | .error _ => none

/-! ## Concrete configurations used by witnesses and counterexamples -/

def cfgR_AB : Config := ⟨[("R", {"A", "B"})], [("R", some "A")], ∅⟩

def cfgR_A : Config := ⟨[("R", {"A"})], [("R", some "A")], ∅⟩

def cfgEmpty : Config := ⟨[], [], ∅⟩

/-- A configuration with an admin_servers entry for a realm whose KDC set is
empty: it satisfies the admin-membership invariant vacuously, yet the save and
load pair drops the entry. -/
def cfgDangling : Config := ⟨[("R", ∅)], [("R", none)], ∅⟩

end Txwinrm

deriving instance DecidableEq for Except

namespace Txwinrm

/-! ## Association-list lemmas -/

theorem assocFind_dictSet_self {α : Type} (l : List (String × α)) (k : String)
    (v : α) : assocFind (dictSet l k v) k = some v := by
  induction l with
  | nil => simp [dictSet, assocFind]
  | cons hd tl ih =>
    obtain ⟨k1, w⟩ := hd
    by_cases hk : k1 = k <;> simp [dictSet, assocFind, hk, ih]

theorem assocFind_dictSet_ne {α : Type} (l : List (String × α)) (k r : String)
    (v : α) (h : r ≠ k) : assocFind (dictSet l k v) r = assocFind l r := by
  have hkr : k ≠ r := fun hh => h hh.symm
  induction l with
  | nil => simp [dictSet, assocFind, hkr]
  | cons hd tl ih =>
    obtain ⟨k1, w⟩ := hd
    by_cases hk : k1 = k
    · subst hk
      simp [dictSet, assocFind, hkr]
    · simp [dictSet, assocFind, hk, ih]

theorem dictSet_of_assocFind_eq {α : Type} (l : List (String × α)) (k : String)
    (v : α) (h : assocFind l k = some v) : dictSet l k v = l := by
  induction l with
  | nil => simp [assocFind] at h
  | cons hd tl ih =>
    obtain ⟨k1, w⟩ := hd
    by_cases hk : k1 = k
    · subst hk
      simp [assocFind] at h
      simp [dictSet, h]
    · simp [assocFind, hk] at h
      simp [dictSet, hk, ih h]

theorem assocFind_append_single {α : Type} (l : List (String × α)) (k r : String)
    (v : α) :
    assocFind (l ++ [(k, v)]) r =
      match assocFind l r with
      | some w => some w
      | none => if k = r then some v else none := by
  induction l with
  | nil => simp [assocFind]
  | cons hd tl ih =>
    obtain ⟨k1, w⟩ := hd
    by_cases h1 : k1 = r <;> simp [assocFind, h1, ih]

theorem ddRead_of_found (l : List (String × Finset String)) (k : String)
    (v : Finset String) (h : assocFind l k = some v) : ddRead l k = (v, l) := by
  simp [ddRead, h]

theorem ddRead_fst_getD (l : List (String × Finset String)) (k : String) :
    (ddRead l k).1 = (assocFind l k).getD ∅ := by
  cases h : assocFind l k <;> simp [ddRead, h]

/-- Reading through the defaultdict never changes what any key reads as. -/
theorem assocFind_ddRead_getD (l : List (String × Finset String)) (k r : String) :
    (assocFind (ddRead l k).2 r).getD ∅ = (assocFind l r).getD ∅ := by
  cases h : assocFind l k with
  | some v => simp [ddRead, h]
  | none =>
    simp only [ddRead, h]
    rw [assocFind_append_single]
    cases hr : assocFind l r with
    | some w => simp
    | none => by_cases hk : k = r <;> simp [hk]

/-- The key just read through the defaultdict is present afterwards and holds
the value that was read. -/
theorem assocFind_ddRead_self (l : List (String × Finset String)) (k : String) :
    assocFind (ddRead l k).2 k = some (ddRead l k).1 := by
  cases h : assocFind l k with
  | some v => simp [ddRead, h]
  | none =>
    simp only [ddRead, h]
    rw [assocFind_append_single, h]
    simp

/-! ## Delta-scan lemmas -/

theorem parseToken_removal (p : DeltaParse) (t : String)
    (h : pyStartsWith "-" (pyStrip t) = true) :
    (parseToken p t).valid = p.valid ∧ (parseToken p t).admin = p.admin := by
  unfold parseToken
  cases hl : pyStripL t.data with
  | nil =>
    rw [pyStartsWith] at h
    simp only [pyStrip, hl] at h
    simp [List.isPrefixOf] at h
  | cons c cs =>
    have hc : c = '-' := by
      rw [pyStartsWith] at h
      simp only [pyStrip, hl] at h
      simp [List.isPrefixOf] at h
      exact h.symm
    subst hc
    simp [parseTokenL]

theorem foldl_parseToken_removals (L : List String) (p : DeltaParse)
    (h : ∀ t ∈ L, pyStartsWith "-" (pyStrip t) = true) :
    (L.foldl parseToken p).valid = p.valid ∧
      (L.foldl parseToken p).admin = p.admin := by
  induction L generalizing p with
  | nil => exact ⟨rfl, rfl⟩
  | cons t ts ih =>
    obtain ⟨h1, h2⟩ := parseToken_removal p t (h t (by simp))
    obtain ⟨h3, h4⟩ := ih (parseToken p t) (fun u hu => h u (by simp [hu]))
    simp only [List.foldl_cons]
    exact ⟨h3.trans h1, h4.trans h2⟩

/-- Any admin server recorded by the token scan was also appended to the
added-host list. -/
theorem parseToken_admin_mem (p : DeltaParse) (t : String)
    (hp : ∀ s, p.admin = some s → s ∈ p.valid) :
    ∀ s, (parseToken p t).admin = some s → s ∈ (parseToken p t).valid := by
  intro s
  unfold parseToken
  cases hl : pyStripL t.data with
  | nil => exact hp s
  | cons c cs =>
    by_cases h1 : c = '+'
    · simp only [parseTokenL, h1, if_pos rfl]
      intro hs
      simp [hp s hs]
    · by_cases h2 : c = '-'
      · subst h2
        simp only [parseTokenL, if_neg h1, if_pos rfl]
        exact hp s
      · by_cases h3 : c = '*'
        · subst h3
          simp only [parseTokenL, if_neg h1, if_neg h2, if_pos rfl]
          intro hs
          injection hs with hs1
          simp [hs1]
        · simp only [parseTokenL, if_neg h1, if_neg h2, if_neg h3]
          intro hs
          simp [hp s hs]

theorem parseDelta_admin_mem (kdcs : String) :
    ∀ s, (parseDelta kdcs).admin = some s → s ∈ (parseDelta kdcs).valid := by
  unfold parseDelta
  generalize pySplitChar ',' kdcs = L
  have base : ∀ s, (⟨[], [], none⟩ : DeltaParse).admin = some s →
      s ∈ (⟨[], [], none⟩ : DeltaParse).valid := by intro s hs; cases hs
  generalize hq : (⟨[], [], none⟩ : DeltaParse) = q at base ⊢
  clear hq
  induction L generalizing q with
  | nil => exact base
  | cons t ts ih =>
    simp only [List.foldl_cons]
    exact ih (parseToken q t) (parseToken_admin_mem q t base)

/-- The admin server actually stored when at least one host is added: it is
some host from the added list. -/
theorem effAdmin_mem (p : DeltaParse) (hval : p.valid ≠ [])
    (hp : ∀ s, p.admin = some s → s ∈ p.valid) :
    ∃ a, effAdmin p = some a ∧ a ∈ p.valid := by
  cases hb : pyTruthyS p.admin with
  | false =>
    refine ⟨p.valid.headI, by simp [effAdmin, hb, hval], ?_⟩
    cases hv : p.valid with
    | nil => exact absurd hv hval
    | cons x xs => simp [hv]
  | true =>
    cases ha : p.admin with
    | none => rw [ha] at hb; simp [pyTruthyS] at hb
    | some s =>
      refine ⟨s, ?_, hp s ha⟩
      rw [ha] at hb
      simp [effAdmin, ha, hb]

/-! ## Case analysis of add_kdc_core -/

/-- Every normal return of add_kdc_core is either the silent no-change return
or the full update-and-save path. -/
theorem add_kdc_core_spec (cfg : Config) (realm : String) (p : DeltaParse)
    (cur : Finset String) (rls : List (String × Finset String)) (c : Config)
    (w : Bool) (hdd : ddRead cfg.realms realm = (cur, rls))
    (h : add_kdc_core cfg realm p = .ok (c, w)) :
    (w = false ∧ c = { cfg with realms := rls }
      ∧ assocFind cfg.admin_servers realm = some (effAdmin p)
      ∧ (cur \ p.valid.toFinset) ∪ (p.valid.toFinset \ cur) = ∅
      ∧ cur ∩ p.remove.toFinset = ∅)
    ∨ (w = true ∧ c = { cfg with
        realms := dictSet rls realm
          ((cur ∪ ((cur \ p.valid.toFinset) ∪ (p.valid.toFinset \ cur))) \
            (cur ∩ p.remove.toFinset)),
        admin_servers := dictSet cfg.admin_servers realm (effAdmin p) }) := by
  simp only [add_kdc_core, hdd] at h
  split at h
  · rename_i hcond
    split at h
    · exact absurd h (by simp)
    · rename_i stored hstored
      split at h
      · rename_i hadm
        simp only [Except.ok.injEq, Prod.mk.injEq] at h
        refine Or.inl ⟨h.2.symm, h.1.symm, ?_, hcond.1, hcond.2⟩
        rw [hstored, hadm]
      · simp only [Except.ok.injEq, Prod.mk.injEq] at h
        exact Or.inr ⟨h.2.symm, h.1.symm⟩
  · simp only [Except.ok.injEq, Prod.mk.injEq] at h
    exact Or.inr ⟨h.2.symm, h.1.symm⟩

/-- Evaluation of add_kdc_core on the silent no-change path. -/
theorem add_kdc_core_eval_nochange (cfg : Config) (realm : String)
    (p : DeltaParse) (cur : Finset String)
    (hfound : assocFind cfg.realms realm = some cur)
    (hnew : (cur \ p.valid.toFinset) ∪ (p.valid.toFinset \ cur) = ∅)
    (hbad : cur ∩ p.remove.toFinset = ∅)
    (hadm : assocFind cfg.admin_servers realm = some (effAdmin p)) :
    add_kdc_core cfg realm p = .ok (cfg, false) := by
  have hdd := ddRead_of_found cfg.realms realm cur hfound
  simp [add_kdc_core, hdd, hnew, hbad, hadm]

/-- Evaluation of add_kdc_core on the update-and-save path, for a realm key
that is already present. -/
theorem add_kdc_core_eval_proceed (cfg : Config) (realm : String)
    (p : DeltaParse) (cur : Finset String)
    (hfound : assocFind cfg.realms realm = some cur)
    (hch : ¬((cur \ p.valid.toFinset) ∪ (p.valid.toFinset \ cur) = ∅ ∧
      cur ∩ p.remove.toFinset = ∅)) :
    add_kdc_core cfg realm p =
      .ok ({ cfg with
        realms := dictSet cfg.realms realm
          ((cur ∪ ((cur \ p.valid.toFinset) ∪ (p.valid.toFinset \ cur))) \
            (cur ∩ p.remove.toFinset)),
        admin_servers := dictSet cfg.admin_servers realm (effAdmin p) }, true) := by
  have hdd := ddRead_of_found cfg.realms realm cur hfound
  simp [add_kdc_core, hdd, hch]

/-- Evaluation of add_kdc_core on the KeyError path: nothing to add, nothing
present to remove, and no admin server entry for the realm. -/
theorem add_kdc_core_eval_keyerror (cfg : Config) (realm : String)
    (p : DeltaParse) (hval : p.valid = [])
    (hfound : assocFind cfg.realms realm = none)
    (hadm : assocFind cfg.admin_servers realm = none) :
    add_kdc_core cfg realm p = .error () := by
  have hdd : ddRead cfg.realms realm = (∅, cfg.realms ++ [(realm, ∅)]) := by
    simp [ddRead, hfound]
  simp [add_kdc_core, hdd, hval, hadm]

/-! ## Finset facts about the merge algebra -/

theorem merge_bad_empty (cur V R : Finset String) (hdisj : V ∩ R = ∅) :
    ((cur ∪ ((cur \ V) ∪ (V \ cur))) \ (cur ∩ R)) ∩ R = ∅ := by
  have hd : ∀ x : String, ¬(x ∈ V ∧ x ∈ R) := by
    intro x hx
    have hm : x ∈ V ∩ R := Finset.mem_inter.mpr hx
    rw [hdisj] at hm
    exact Finset.not_mem_empty x hm
  ext x
  have hdx := hd x
  simp only [Finset.mem_inter, Finset.mem_sdiff, Finset.mem_union,
    Finset.not_mem_empty, iff_false]
  tauto

theorem merge_sub (cur V R : Finset String) (hdisj : V ∩ R = ∅) :
    V ⊆ (cur ∪ ((cur \ V) ∪ (V \ cur))) \ (cur ∩ R) := by
  have hd : ∀ x : String, ¬(x ∈ V ∧ x ∈ R) := by
    intro x hx
    have hm : x ∈ V ∩ R := Finset.mem_inter.mpr hx
    rw [hdisj] at hm
    exact Finset.not_mem_empty x hm
  intro x hx
  have hdx := hd x
  simp only [Finset.mem_sdiff, Finset.mem_union, Finset.mem_inter]
  by_cases hc : x ∈ cur <;> tauto

/-- Applying the merge of one parsed delta twice gives the same KDC set as
applying it once, provided no host is both added and removed. -/
theorem merge_twice_eq (cur V R : Finset String) (hdisj : V ∩ R = ∅) :
    (((cur ∪ ((cur \ V) ∪ (V \ cur))) \ (cur ∩ R)) ∪
      ((((cur ∪ ((cur \ V) ∪ (V \ cur))) \ (cur ∩ R)) \ V) ∪
        (V \ ((cur ∪ ((cur \ V) ∪ (V \ cur))) \ (cur ∩ R))))) \
      (((cur ∪ ((cur \ V) ∪ (V \ cur))) \ (cur ∩ R)) ∩ R)
    = (cur ∪ ((cur \ V) ∪ (V \ cur))) \ (cur ∩ R) := by
  have hd : ∀ x : String, ¬(x ∈ V ∧ x ∈ R) := by
    intro x hx
    have hm : x ∈ V ∩ R := Finset.mem_inter.mpr hx
    rw [hdisj] at hm
    exact Finset.not_mem_empty x hm
  ext x
  have hdx := hd x
  simp only [Finset.mem_sdiff, Finset.mem_union, Finset.mem_inter]
  by_cases hc : x ∈ cur <;> by_cases hv : x ∈ V <;> by_cases hr : x ∈ R <;> tauto

theorem adminInv_cfgR_AB : AdminInv cfgR_AB := by
  intro r hr
  by_cases h : ("R" : String) = r
  · subst h
    exact ⟨"A", by decide, by decide⟩
  · exfalso
    have hre : realmsOf cfgR_AB r = ∅ := by
      simp [realmsOf, cfgR_AB, assocFind, h]
    rw [hre] at hr
    exact Finset.not_nonempty_empty hr

/-! ## Claim C9 -/

/-- C9: for every realm and every delta string that is empty or consists only
of whitespace, Config.add_kdc is a no-op: the realms mapping, admin-server
mapping and include-directory set are returned unchanged and no file write
occurs. -/
theorem c9_add_kdc_blank_delta_noop (cfg : Config) (realm kdcs : String)
    (h : pyStrip kdcs = "") : add_kdc cfg realm kdcs = .ok (cfg, false) := by
  simp [add_kdc, h]

theorem c9_add_kdc_blank_delta_noop_witness :
    pyStrip "  " = "" ∧ add_kdc cfgR_AB "REALM" "  " = .ok (cfgR_AB, false) :=
  ⟨by decide, c9_add_kdc_blank_delta_noop cfgR_AB "REALM" "  " (by decide)⟩

/-! ## Claim C10 -/

/-- C10: calling add_kdc for a realm that has no admin-server entry, with a
non-blank delta whose tokens are all minus-prefixed removals, raises an
uncaught KeyError (modelled as Except.error ()) from the admin_servers read
of the no-change test, instead of completing as a no-op. -/
theorem c10_add_kdc_fresh_realm_keyerror (cfg : Config) (realm kdcs : String)
    (h1 : ∀ t ∈ pySplitChar ',' kdcs, pyStartsWith "-" (pyStrip t) = true)
    (h2 : pyStrip kdcs ≠ "")
    (h3 : assocFind cfg.realms realm = none)
    (h4 : assocFind cfg.admin_servers realm = none) :
    add_kdc cfg realm kdcs = .error () := by
  obtain ⟨hval, hadm0⟩ :=
    foldl_parseToken_removals (pySplitChar ',' kdcs) ⟨[], [], none⟩ h1
  simp only [add_kdc, if_neg h2]
  exact add_kdc_core_eval_keyerror cfg realm (parseDelta kdcs) hval h3 h4

theorem c10_add_kdc_fresh_realm_keyerror_witness :
    (∀ t ∈ pySplitChar ',' "-X", pyStartsWith "-" (pyStrip t) = true) ∧
      pyStrip "-X" ≠ "" ∧
      assocFind cfgEmpty.realms "R" = none ∧
      assocFind cfgEmpty.admin_servers "R" = none ∧
      add_kdc cfgEmpty "R" "-X" = .error () :=
  ⟨by decide, by decide, by decide, by decide,
    c10_add_kdc_fresh_realm_keyerror cfgEmpty "R" "-X"
      (by decide) (by decide) (by decide) (by decide)⟩

/-! ## Claim C2 -/

/-- C2 counterexample: on a realm with KDCs A and B and admin server A, the
delta +C,-B does yield KDCs A and C, but the stored admin server becomes C,
the first token in delta order, not the retained A that the claim states. -/
theorem c2_counterexample :
    realmsOf (addKdcState cfgR_AB "R" "+C,-B") "R" = {"A", "C"} ∧
      assocFind (addKdcState cfgR_AB "R" "+C,-B").admin_servers "R"
        = some (some "C") ∧
      assocFind (addKdcState cfgR_AB "R" "+C,-B").admin_servers "R"
        ≠ some (some "A") := by
  decide

/-- C2 (amended): when no delta token carries the `*` marker and at least one
token adds a host, any add_kdc call that reaches the save writes the first
added token as the admin server unconditionally: an existing admin server is
not retained. -/
theorem c2_admin_first_added (cfg c1 : Config) (realm kdcs : String)
    (hstar : (parseDelta kdcs).admin = none)
    (hval : (parseDelta kdcs).valid ≠ [])
    (h : add_kdc cfg realm kdcs = .ok (c1, true)) :
    assocFind c1.admin_servers realm
      = some (some (parseDelta kdcs).valid.headI) := by
  by_cases hs : pyStrip kdcs = ""
  · simp [add_kdc, hs] at h
  · simp only [add_kdc, if_neg hs] at h
    rcases add_kdc_core_spec cfg realm (parseDelta kdcs)
        (ddRead cfg.realms realm).1 (ddRead cfg.realms realm).2 c1 true rfl h with
      ⟨hw, _⟩ | ⟨_, hc⟩
    · exact Bool.noConfusion hw
    · subst hc
      have heff : effAdmin (parseDelta kdcs)
          = some ((parseDelta kdcs).valid.headI) := by
        simp [effAdmin, hstar, pyTruthyS, hval]
      show assocFind (dictSet cfg.admin_servers realm (effAdmin (parseDelta kdcs)))
          realm = _
      rw [assocFind_dictSet_self, heff]

theorem c2_admin_first_added_witness :
    (parseDelta "+C,-B").admin = none ∧
      (parseDelta "+C,-B").valid ≠ [] ∧
      add_kdc cfgR_AB "R" "+C,-B"
        = .ok (⟨[("R", {"A", "C"})], [("R", some "C")], ∅⟩, true) ∧
      assocFind (⟨[("R", {"A", "C"})], [("R", some "C")], ∅⟩ : Config).admin_servers
          "R" = some (some (parseDelta "+C,-B").valid.headI) :=
  ⟨by decide, by decide, by decide,
    c2_admin_first_added cfgR_AB ⟨[("R", {"A", "C"})], [("R", some "C")], ∅⟩
      "R" "+C,-B" (by decide) (by decide) (by decide)⟩

/-! ## Claim C1 -/

/-- C1 counterexample: the configuration with realm R holding KDCs A and B
and admin server A satisfies the invariant, and the pure-removal delta -A
returns normally, yet afterwards realm R has the non-empty KDC set containing
only B while its admin server entry stores Python None, violating the
invariant. -/
theorem c1_counterexample :
    AdminInv cfgR_AB ∧
      add_kdc cfgR_AB "R" "-A"
        = .ok (⟨[("R", {"B"})], [("R", none)], ∅⟩, true) ∧
      ¬ AdminInv ⟨[("R", {"B"})], [("R", none)], ∅⟩ := by
  refine ⟨adminInv_cfgR_AB, by decide, ?_⟩
  intro hinv
  obtain ⟨a, ha, _⟩ := hinv "R" ⟨"B", by decide⟩
  rw [show assocFind (⟨[("R", {"B"})], [("R", none)], ∅⟩ : Config).admin_servers
      "R" = some none from by decide] at ha
  simp at ha

/-- C1 (amended): the invariant -- every realm with a non-empty KDC set has a
non-None admin server belonging to that set -- is preserved by every normally
returning add_kdc call whose delta adds at least one host and whose effective
admin server is not among the removed tokens; pure-removal deltas can break
it. -/
theorem c1_admin_inv_preserved (cfg c1 : Config) (realm kdcs : String)
    (w : Bool) (hinv : AdminInv cfg)
    (hval : (parseDelta kdcs).valid ≠ [])
    (hrem : ∀ a ∈ (effAdmin (parseDelta kdcs)).toList,
      a ∉ (parseDelta kdcs).remove)
    (h : add_kdc cfg realm kdcs = .ok (c1, w)) :
    AdminInv c1 := by
  by_cases hs : pyStrip kdcs = ""
  · simp [add_kdc, hs] at h
    rw [← h.1]
    exact hinv
  · simp only [add_kdc, if_neg hs] at h
    rcases add_kdc_core_spec cfg realm (parseDelta kdcs)
        (ddRead cfg.realms realm).1 (ddRead cfg.realms realm).2 c1 w rfl h with
      ⟨_, hc, _, _, _⟩ | ⟨_, hc⟩
    · subst hc
      intro r hr
      have hre : realmsOf
          ({ cfg with realms := (ddRead cfg.realms realm).2 } : Config) r
          = realmsOf cfg r := by
        simp only [realmsOf]
        exact assocFind_ddRead_getD cfg.realms realm r
      rw [hre] at hr ⊢
      exact hinv r hr
    · subst hc
      intro r hr
      by_cases hreq : r = realm
      · subst hreq
        obtain ⟨a, haeff, hamem⟩ :=
          effAdmin_mem (parseDelta kdcs) hval (parseDelta_admin_mem kdcs)
        refine ⟨a, ?_, ?_⟩
        · show assocFind
            (dictSet cfg.admin_servers r (effAdmin (parseDelta kdcs))) r = _
          rw [assocFind_dictSet_self, haeff]
        · have hS : realmsOf
              ({ cfg with
                realms := dictSet (ddRead cfg.realms r).2 r
                  (((ddRead cfg.realms r).1 ∪
                    (((ddRead cfg.realms r).1 \ (parseDelta kdcs).valid.toFinset) ∪
                      ((parseDelta kdcs).valid.toFinset \ (ddRead cfg.realms r).1))) \
                    ((ddRead cfg.realms r).1 ∩ (parseDelta kdcs).remove.toFinset)),
                admin_servers :=
                  dictSet cfg.admin_servers r (effAdmin (parseDelta kdcs)) } :
              Config) r
              = (((ddRead cfg.realms r).1 ∪
                  (((ddRead cfg.realms r).1 \ (parseDelta kdcs).valid.toFinset) ∪
                    ((parseDelta kdcs).valid.toFinset \ (ddRead cfg.realms r).1))) \
                  ((ddRead cfg.realms r).1 ∩ (parseDelta kdcs).remove.toFinset)) := by
            simp only [realmsOf]
            rw [assocFind_dictSet_self]
            rfl
          rw [hS]
          have hV : a ∈ (parseDelta kdcs).valid.toFinset :=
            List.mem_toFinset.mpr hamem
          refine Finset.mem_sdiff.mpr ⟨?_, ?_⟩
          · by_cases hac : a ∈ (ddRead cfg.realms r).1
            · exact Finset.mem_union_left _ hac
            · exact Finset.mem_union_right _
                (Finset.mem_union_right _ (Finset.mem_sdiff.mpr ⟨hV, hac⟩))
          · intro hin
            exact hrem a (by simp [haeff])
              (List.mem_toFinset.mp (Finset.mem_inter.mp hin).2)
      · have hre : realmsOf
            ({ cfg with
              realms := dictSet (ddRead cfg.realms realm).2 realm
                (((ddRead cfg.realms realm).1 ∪
                  (((ddRead cfg.realms realm).1 \ (parseDelta kdcs).valid.toFinset) ∪
                    ((parseDelta kdcs).valid.toFinset \ (ddRead cfg.realms realm).1))) \
                  ((ddRead cfg.realms realm).1 ∩ (parseDelta kdcs).remove.toFinset)),
              admin_servers :=
                dictSet cfg.admin_servers realm (effAdmin (parseDelta kdcs)) } :
            Config) r
            = realmsOf cfg r := by
          simp only [realmsOf]
          rw [assocFind_dictSet_ne _ _ _ _ hreq]
          exact assocFind_ddRead_getD cfg.realms realm r
        rw [hre] at hr ⊢
        obtain ⟨a, ha1, ha2⟩ := hinv r hr
        refine ⟨a, ?_, ha2⟩
        show assocFind
          (dictSet cfg.admin_servers realm (effAdmin (parseDelta kdcs))) r = _
        rw [assocFind_dictSet_ne _ _ _ _ hreq]
        exact ha1

theorem c1_admin_inv_preserved_witness :
    AdminInv cfgR_AB ∧
      (parseDelta "+C,-B").valid ≠ [] ∧
      (∀ a ∈ (effAdmin (parseDelta "+C,-B")).toList,
        a ∉ (parseDelta "+C,-B").remove) ∧
      add_kdc cfgR_AB "R" "+C,-B"
        = .ok (⟨[("R", {"A", "C"})], [("R", some "C")], ∅⟩, true) ∧
      AdminInv ⟨[("R", {"A", "C"})], [("R", some "C")], ∅⟩ :=
  ⟨adminInv_cfgR_AB, by decide, by decide, by decide,
    c1_admin_inv_preserved cfgR_AB ⟨[("R", {"A", "C"})], [("R", some "C")], ∅⟩
      "R" "+C,-B" true adminInv_cfgR_AB (by decide) (by decide) (by decide)⟩

/-! ## Claim C3 -/

/-- C3 counterexample: on a realm with KDC set containing only A and admin
server A, running the delta +C,-C twice is not idempotent: the first call
produces the KDC set with A and C, the second call removes C again, so the
configuration after the second call differs from the one after the first. -/
theorem c3_counterexample :
    addKdcState (addKdcState cfgR_A "R" "+C,-C") "R" "+C,-C"
      ≠ addKdcState cfgR_A "R" "+C,-C" := by
  decide

/-- C3 (amended): add_kdc is idempotent on the configuration state whenever
no host is simultaneously added and removed by the delta: a second call with
the same arguments returns exactly the configuration left by the first call.
The write-skipping half of the original claim does not hold: the second call
may still run save, so no constraint is put on its write flag here. -/
theorem c3_add_kdc_idempotent_state (cfg c1 : Config) (realm kdcs : String)
    (w1 : Bool)
    (hdisj : (parseDelta kdcs).valid.toFinset ∩ (parseDelta kdcs).remove.toFinset
      = ∅)
    (h : add_kdc cfg realm kdcs = .ok (c1, w1)) :
    ∃ w2, add_kdc c1 realm kdcs = .ok (c1, w2) := by
  by_cases hs : pyStrip kdcs = ""
  · refine ⟨false, ?_⟩
    have hc : c1 = cfg := by
      simp [add_kdc, hs] at h
      exact h.1.symm
    subst hc
    simp [add_kdc, hs]
  · simp only [add_kdc, if_neg hs] at h ⊢
    rcases add_kdc_core_spec cfg realm (parseDelta kdcs)
        (ddRead cfg.realms realm).1 (ddRead cfg.realms realm).2 c1 w1 rfl h with
      ⟨_, hc, hadm, hnew, hbad⟩ | ⟨_, hc⟩
    · refine ⟨false, ?_⟩
      subst hc
      exact add_kdc_core_eval_nochange _ realm (parseDelta kdcs)
        ((ddRead cfg.realms realm).1)
        (assocFind_ddRead_self cfg.realms realm) hnew hbad hadm
    · subst hc
      have hfound2 : assocFind
          (dictSet (ddRead cfg.realms realm).2 realm
            (((ddRead cfg.realms realm).1 ∪
              (((ddRead cfg.realms realm).1 \ (parseDelta kdcs).valid.toFinset) ∪
                ((parseDelta kdcs).valid.toFinset \ (ddRead cfg.realms realm).1))) \
              ((ddRead cfg.realms realm).1 ∩ (parseDelta kdcs).remove.toFinset)))
          realm
          = some (((ddRead cfg.realms realm).1 ∪
              (((ddRead cfg.realms realm).1 \ (parseDelta kdcs).valid.toFinset) ∪
                ((parseDelta kdcs).valid.toFinset \ (ddRead cfg.realms realm).1))) \
              ((ddRead cfg.realms realm).1 ∩ (parseDelta kdcs).remove.toFinset)) :=
        assocFind_dictSet_self _ _ _
      have hadm2 : assocFind
          (dictSet cfg.admin_servers realm (effAdmin (parseDelta kdcs))) realm
          = some (effAdmin (parseDelta kdcs)) := assocFind_dictSet_self _ _ _
      have hbad2 := merge_bad_empty ((ddRead cfg.realms realm).1)
        ((parseDelta kdcs).valid.toFinset) ((parseDelta kdcs).remove.toFinset) hdisj
      by_cases hnew2 :
          ((((ddRead cfg.realms realm).1 ∪
            (((ddRead cfg.realms realm).1 \ (parseDelta kdcs).valid.toFinset) ∪
              ((parseDelta kdcs).valid.toFinset \ (ddRead cfg.realms realm).1))) \
            ((ddRead cfg.realms realm).1 ∩ (parseDelta kdcs).remove.toFinset)) \
            (parseDelta kdcs).valid.toFinset) ∪
          ((parseDelta kdcs).valid.toFinset \
            (((ddRead cfg.realms realm).1 ∪
              (((ddRead cfg.realms realm).1 \ (parseDelta kdcs).valid.toFinset) ∪
                ((parseDelta kdcs).valid.toFinset \ (ddRead cfg.realms realm).1))) \
              ((ddRead cfg.realms realm).1 ∩ (parseDelta kdcs).remove.toFinset)))
          = ∅
      · exact ⟨false, add_kdc_core_eval_nochange _ realm (parseDelta kdcs) _
          hfound2 hnew2 hbad2 hadm2⟩
      · refine ⟨true, ?_⟩
        rw [add_kdc_core_eval_proceed _ realm (parseDelta kdcs) _ hfound2
          (fun hcontra => hnew2 hcontra.1)]
        have hS2 := merge_twice_eq ((ddRead cfg.realms realm).1)
          ((parseDelta kdcs).valid.toFinset) ((parseDelta kdcs).remove.toFinset)
          hdisj
        rw [hS2, dictSet_of_assocFind_eq _ _ _ hfound2,
          dictSet_of_assocFind_eq _ _ _ hadm2]

/-! ## String and path lemmas -/

theorem string_data_append (a b : String) : (a ++ b).data = a.data ++ b.data :=
  rfl

theorem dropWhile_append_all {α : Type} (p : α → Bool) (l1 l2 : List α)
    (h : ∀ x ∈ l1, p x = true) :
    (l1 ++ l2).dropWhile p = l2.dropWhile p := by
  induction l1 with
  | nil => rfl
  | cons x xs ih =>
    rw [List.cons_append, List.dropWhile_cons_of_pos (h x (by simp))]
    exact ih (fun y hy => h y (by simp [hy]))

theorem reverse_head_of_getLast {α : Type} (l : List α) (c : α)
    (h : l.getLast? = some c) : ∃ t, l.reverse = c :: t := by
  cases hr : l.reverse with
  | nil =>
    have h0 : l = [] := by
      have := congrArg List.reverse hr
      simpa using this
    rw [h0] at h
    cases h
  | cons x t =>
    refine ⟨t, ?_⟩
    have hl : l = t.reverse ++ [x] := by
      have := congrArg List.reverse hr
      simpa [List.reverse_cons] using this
    rw [hl, List.getLast?_append_of_ne_nil _ (by simp)] at h
    simp at h
    rw [h]

theorem pyJoin_plain (a b : String) (c : Char)
    (ha : a.data.getLast? = some c) (hc : ¬(c = '/'))
    (hb : pyStartsWith "/" b = false) : pyJoin a b = a ++ "/" ++ b := by
  have hnil : ¬(a = "") := by
    intro h0
    rw [h0] at ha
    cases ha
  have hes : pyEndsSlash a = false := by
    simp [pyEndsSlash, ha, hc]
  simp [pyJoin, hb, hnil, hes]

theorem pyDirname_join (a b : String) (c : Char)
    (ha : a.data.getLast? = some c) (hc : ¬(c = '/'))
    (hb : ∀ x ∈ b.data, ¬(x = '/')) :
    pyDirname (a ++ "/" ++ b) = a := by
  obtain ⟨t, ht⟩ := reverse_head_of_getLast a.data c ha
  have hdata : (a ++ "/" ++ b).data = a.data ++ '/' :: b.data := by
    rw [string_data_append, string_data_append]
    simp
  have hrc : ('/' :: b.data).reverse = b.data.reverse ++ ['/'] := by
    simp [List.reverse_cons]
  have hrev : (a ++ "/" ++ b).data.reverse.dropWhile (fun x => !(x = '/'))
      = '/' :: c :: t := by
    rw [hdata, List.reverse_append, hrc, List.append_assoc,
      dropWhile_append_all _ b.data.reverse _
        (by intro x hx; simp only [List.mem_reverse] at hx; simp [hb x hx]),
      List.singleton_append, List.dropWhile_cons_of_neg (by simp), ht]
  have hall : (('/' :: c :: t).all fun x => x = '/') = false := by
    simp [List.all_cons, hc]
  simp only [pyDirname, hrev, hall, Bool.false_eq_true, if_false]
  rw [List.dropWhile_cons_of_pos (by simp),
    List.dropWhile_cons_of_neg (by simp [hc])]
  have hback : (c :: t).reverse = a.data := by
    have := congrArg List.reverse ht
    simpa using this.symm
  rw [hback]

theorem pyJoin_word_last (z w : String) (c : Char)
    (hw : w.data.getLast? = some c) :
    (pyJoin z w).data.getLast? = some c := by
  have hwnil : w.data ≠ [] := by
    intro h0
    rw [h0] at hw
    cases hw
  unfold pyJoin
  by_cases h1 : pyStartsWith "/" w = true
  · simp [h1, hw]
  · simp only [h1, Bool.false_eq_true, if_false]
    by_cases h2 : z = ""
    · simp [h2, hw]
    · simp only [h2, if_false]
      by_cases h3 : pyEndsSlash z = true
      · simp only [h3, if_true]
        rw [string_data_append, List.getLast?_append_of_ne_nil _ hwnil]
        exact hw
      · simp only [h3, Bool.false_eq_true, if_false]
        rw [string_data_append, List.getLast?_append_of_ne_nil _ hwnil]
        exact hw

/-! ## Claim C8 -/

/-- C8 counterexample: with no environment variable set, get_ccname returns
the empty string, which is not of the form root slash username for any
private root at all, in particular not for the system default demanded by the
precedence rule of the claim; the KRB5_CONFIG override step of get_path has
no counterpart in get_ccname either. -/
theorem c8_counterexample :
    get_ccname (fun _ => none) "alice" = "" ∧
      ¬ ∃ root : String,
        get_ccname (fun _ => none) "alice" = root ++ "/" ++ "alice" := by
  refine ⟨rfl, ?_⟩
  rintro ⟨root, h⟩
  rw [show get_ccname (fun _ => none) "alice" = "" from rfl] at h
  have hd := congrArg List.length (congrArg String.data h)
  rw [string_data_append, string_data_append] at hd
  simp only [List.length_append] at hd
  have h1 : ("" : String).data.length = 0 := rfl
  have h2 : ("/" : String).data.length = 1 := rfl
  have h3 : ("alice" : String).data.length = 5 := rfl
  rw [h1, h2, h3] at hd
  omega

/-- C8 (amended): get_ccname never consults the KRB5_CONFIG override and has
no system default (it returns the empty string when neither ZENHOME nor HOME
is set); on the remaining environments, where the override is unset and
ZENHOME or HOME is set, the per-user cache path is
join(dirname(config path), krb5cc, username), so the private root follows the
config path there. -/
theorem c8_ccname_follows_config_dir (env : String → Option String)
    (u : String) (hk : env "KRB5_CONFIG" = none)
    (hzh : env "ZENHOME" ≠ none ∨ env "HOME" ≠ none) :
    get_ccname env u = pyJoin (pyJoin (pyDirname (get_path env)) "krb5cc") u := by
  cases hz : env "ZENHOME" with
  | some z =>
    have hW : (pyJoin z "var").data.getLast? = some 'r' :=
      pyJoin_word_last z "var" 'r' (by decide)
    have hjoin : pyJoin (pyJoin z "var") "krb5.conf"
        = pyJoin z "var" ++ "/" ++ "krb5.conf" :=
      pyJoin_plain _ _ 'r' hW (by decide) (by decide)
    have hdir : pyDirname (pyJoin z "var" ++ "/" ++ "krb5.conf")
        = pyJoin z "var" :=
      pyDirname_join _ _ 'r' hW (by decide) (by decide)
    simp only [get_ccname, get_path, hk, hz, hjoin, hdir]
  | none =>
    cases hh : env "HOME" with
    | some hom =>
      have hW : (pyJoin hom ".txwinrm").data.getLast? = some 'm' :=
        pyJoin_word_last hom ".txwinrm" 'm' (by decide)
      have hjoin : pyJoin (pyJoin hom ".txwinrm") "krb5.conf"
          = pyJoin hom ".txwinrm" ++ "/" ++ "krb5.conf" :=
        pyJoin_plain _ _ 'm' hW (by decide) (by decide)
      have hdir : pyDirname (pyJoin hom ".txwinrm" ++ "/" ++ "krb5.conf")
          = pyJoin hom ".txwinrm" :=
        pyDirname_join _ _ 'm' hW (by decide) (by decide)
      simp only [get_ccname, get_path, hk, hz, hh, hjoin, hdir]
    | none =>
      rcases hzh with h1 | h1
      · exact absurd hz h1
      · exact absurd hh h1

theorem c8_ccname_follows_config_dir_witness :
    (fun v => if v = "ZENHOME" then some "/z" else none) "KRB5_CONFIG" = none ∧
      ((fun v => if v = "ZENHOME" then some "/z" else none) "ZENHOME" ≠ none ∨
        (fun v => if v = "ZENHOME" then some "/z" else none) "HOME" ≠ none) ∧
      get_ccname (fun v => if v = "ZENHOME" then some "/z" else none) "alice"
        = pyJoin (pyJoin (pyDirname
            (get_path (fun v => if v = "ZENHOME" then some "/z" else none)))
          "krb5cc") "alice" :=
  ⟨by decide, Or.inl (by decide),
    c8_ccname_follows_config_dir
      (fun v => if v = "ZENHOME" then some "/z" else none) "alice"
      (by decide) (Or.inl (by decide))⟩

/-! ## Claim C7 -/

/-- C7: for every username whose split on the at sign does not give exactly
two parts, kinit stops before the configuration merge and before any spawn:
the call resolves to one of the two precondition raises (missing binary or
malformed username), never to the proceed step that carries the merge and the
spawn. -/
theorem c7_kinit_malformed_username (isfile : String → Bool) (username : String)
    (h : (pySplitChar '@' username).length ≠ 2) :
    kinit_pre isfile username = .missingBinary ∨
      kinit_pre isfile username = .badUsername := by
  unfold kinit_pre
  cases hf : kinitCandidates.find? isfile with
  | none => exact Or.inl rfl
  | some b =>
    right
    cases hsplit : pySplitChar '@' username with
    | nil => rfl
    | cons u rest =>
      cases rest with
      | nil => rfl
      | cons r rest2 =>
        cases rest2 with
        | nil => exact absurd (by rw [hsplit]; rfl) h
        | cons x xs => rfl

theorem c7_kinit_malformed_username_witness :
    (pySplitChar '@' "baduser").length ≠ 2 ∧
      (kinit_pre (fun _ => true) "baduser" = .missingBinary ∨
        kinit_pre (fun _ => true) "baduser" = .badUsername) :=
  ⟨by decide, c7_kinit_malformed_username (fun _ => true) "baduser" (by decide)⟩

/-! ## Claim C5 -/

/-- C5 counterexample: with no klist binary at either candidate path and a
directory not yet registered, add_includedir does not skip validation: it
adds and saves the directory and then reaches reactor.spawnProcess with None
as the executable, rather than returning cleanly without a spawn attempt. -/
theorem c5_counterexample :
    add_includedir_step cfgEmpty (fun _ => false) "/opt/conf"
        = .spawn none {"/opt/conf"} ∧
      IncludedirStep.spawn none {"/opt/conf"} ≠ .noop := by
  exact ⟨by decide, by decide⟩

/-- C5 (amended): whenever no klist candidate file exists and the directory
is new, the registration still reaches the spawn call, with None as the
executable and with the directory already added to the include set; the
validation is not skipped and the call does not complete as a clean no-op. -/
theorem c5_no_klist_spawns_none (cfg : Config) (isfile : String → Bool)
    (includedir : String)
    (hnone : ∀ pth ∈ klistCandidates, isfile pth = false)
    (hnew : includedir ∉ cfg.includedirs) :
    add_includedir_step cfg isfile includedir
      = .spawn none (insert includedir cfg.includedirs) := by
  have hf : klistCandidates.find? isfile = none := by
    rw [List.find?_eq_none]
    intro x hx
    simp [hnone x hx]
  simp [add_includedir_step, hnew, hf]

theorem c5_no_klist_spawns_none_witness :
    (∀ pth ∈ klistCandidates, (fun _ => false : String → Bool) pth = false) ∧
      "/opt/conf" ∉ cfgEmpty.includedirs ∧
      add_includedir_step cfgEmpty (fun _ => false) "/opt/conf"
        = .spawn none (insert "/opt/conf" cfgEmpty.includedirs) :=
  ⟨by decide, by decide,
    c5_no_klist_spawns_none cfgEmpty (fun _ => false) "/opt/conf"
      (by decide) (by decide)⟩

/-! ## Claim C6 -/

/-- C6: when an arriving stdout chunk contains the marker Password expired
and the accumulated buffer does not satisfy the earlier password-prompt test,
outReceived records exactly the first line of that chunk as the error
fragment and kills the process, and processEnded then resolves with a failure
carrying that fragment (the fragment of the exemplar chunk being non-empty).
-/
theorem c6_expiry_detected (pw : String) (st : KinitProtoState) (chunk : String)
    (h1 : pyIn "Password expired" chunk = true)
    (h2 : (pyIn "Password for" (st.data ++ chunk)
      && pyIn ":" (st.data ++ chunk)) = false) :
    (outReceived pw st chunk).error = pyFirstLine chunk ∧
      (outReceived pw st chunk).killed = true ∧
      (pyFirstLine chunk ≠ "" →
        processEnded (outReceived pw st chunk) = some (pyFirstLine chunk)) := by
  refine ⟨?_, ?_, ?_⟩ <;> simp [outReceived, h1, h2, processEnded]

theorem c6_expiry_detected_witness :
    pyIn "Password expired" "Password expired\nEnter new password:" = true ∧
      (pyIn "Password for"
          (kinitInit.data ++ "Password expired\nEnter new password:")
        && pyIn ":"
          (kinitInit.data ++ "Password expired\nEnter new password:")) = false ∧
      pyFirstLine "Password expired\nEnter new password:" = "Password expired" ∧
      ((outReceived "pw" kinitInit "Password expired\nEnter new password:").error
          = pyFirstLine "Password expired\nEnter new password:" ∧
        (outReceived "pw" kinitInit "Password expired\nEnter new password:").killed
          = true ∧
        (pyFirstLine "Password expired\nEnter new password:" ≠ "" →
          processEnded (outReceived "pw" kinitInit
              "Password expired\nEnter new password:")
            = some (pyFirstLine "Password expired\nEnter new password:"))) :=
  ⟨by decide, by decide, by decide,
    c6_expiry_detected "pw" kinitInit "Password expired\nEnter new password:"
      (by decide) (by decide)⟩

theorem c3_add_kdc_idempotent_state_witness :
    (parseDelta "+C,-B").valid.toFinset ∩ (parseDelta "+C,-B").remove.toFinset
        = ∅ ∧
      add_kdc cfgR_AB "R" "+C,-B"
        = .ok (⟨[("R", {"A", "C"})], [("R", some "C")], ∅⟩, true) ∧
      ∃ w2, add_kdc (⟨[("R", {"A", "C"})], [("R", some "C")], ∅⟩ : Config)
        "R" "+C,-B"
        = .ok (⟨[("R", {"A", "C"})], [("R", some "C")], ∅⟩, w2) :=
  ⟨by decide, by decide,
    c3_add_kdc_idempotent_state cfgR_AB
      ⟨[("R", {"A", "C"})], [("R", some "C")], ∅⟩ "R" "+C,-B" true
      (by decide) (by decide)⟩

end Txwinrm

namespace Txwinrm

/-! ## Codec lemmas: characters and stripping -/

theorem map_eq_self_mem {α : Type} (l : List α) (f : α → α) (h : l.map f = l) :
    ∀ c ∈ l, f c = c := by
  induction l with
  | nil => simp
  | cons x xs ih =>
    simp only [List.map_cons, List.cons.injEq] at h
    intro c hc
    rcases List.mem_cons.mp hc with h1 | h1
    · rw [h1]; exact h.1
    · exact ih h.2 c h1

theorem upper_fixed (n : String) (h : pyUpper n = n) :
    ∀ c ∈ n.data, Char.toUpper c = c := by
  have hd : n.data.map Char.toUpper = n.data := by
    have h2 := congrArg String.data h
    simpa [pyUpper] using h2
  exact map_eq_self_mem _ _ hd

theorem toLower_keeps (c : Char) (hws : pyWs c = false) (hbr : ¬(c = '[')) :
    pyWs (Char.toLower c) = false ∧ ¬(Char.toLower c = '[') := by
  show pyWs (if c.toNat ≥ 65 ∧ c.toNat ≤ 90 then Char.ofNat (c.toNat + 32) else c)
      = false ∧
    ¬(if c.toNat ≥ 65 ∧ c.toNat ≤ 90 then Char.ofNat (c.toNat + 32) else c) = '['
  by_cases h : c.toNat ≥ 65 ∧ c.toNat ≤ 90
  · simp only [if_pos h]
    obtain ⟨h1, h2⟩ := h
    interval_cases h3 : c.toNat <;> exact ⟨by decide, by decide⟩
  · simp only [if_neg h]
    exact ⟨hws, hbr⟩

theorem takeWhile_nil_of_all_neg {α : Type} (p : α → Bool) (l : List α)
    (h : ∀ c ∈ l, p c = false) : l.takeWhile p = [] := by
  cases l with
  | nil => rfl
  | cons x xs =>
    rw [List.takeWhile_cons_of_neg (by simp [h x (by simp)])]

theorem dropWhile_id_of_all_neg {α : Type} (p : α → Bool) (l : List α)
    (h : ∀ c ∈ l, p c = false) : l.dropWhile p = l := by
  cases l with
  | nil => rfl
  | cons x xs =>
    rw [List.dropWhile_cons_of_neg (by simp [h x (by simp)])]

theorem takeWhile_id_of_all_pos {α : Type} (p : α → Bool) (l : List α)
    (h : ∀ x ∈ l, p x = true) : l.takeWhile p = l := by
  induction l with
  | nil => rfl
  | cons x xs ih =>
    rw [List.takeWhile_cons_of_pos (h x (by simp)),
      ih (fun y hy => h y (by simp [hy]))]

theorem dropWhile_nil_of_all_pos {α : Type} (p : α → Bool) (l : List α)
    (h : ∀ x ∈ l, p x = true) : l.dropWhile p = [] := by
  induction l with
  | nil => rfl
  | cons x xs ih =>
    rw [List.dropWhile_cons_of_pos (h x (by simp))]
    exact ih (fun y hy => h y (by simp [hy]))

theorem takeWhile_append_all {α : Type} (p : α → Bool) (l1 l2 : List α)
    (h : ∀ x ∈ l1, p x = true) :
    (l1 ++ l2).takeWhile p = l1 ++ l2.takeWhile p := by
  induction l1 with
  | nil => rfl
  | cons x xs ih =>
    rw [List.cons_append, List.takeWhile_cons_of_pos (h x (by simp)),
      ih (fun y hy => h y (by simp [hy])), List.cons_append]

theorem getLast_nonws (k : String) (h1 : k ≠ "")
    (h2 : ∀ c ∈ k.data, pyWs c = false) :
    ∃ d, k.data.getLast? = some d ∧ pyWs d = false := by
  have hne : k.data ≠ [] := by
    intro h0
    apply h1
    have hk : k = String.mk k.data := rfl
    rw [hk, h0]
  refine ⟨k.data.getLast hne, ?_, h2 _ (List.getLast_mem hne)⟩
  exact List.getLast?_eq_getLast _ hne

theorem pyStripL_no_strip (l : List Char) (c d : Char)
    (h1 : l.head? = some c) (hc : pyWs c = false)
    (h2 : l.getLast? = some d) (hd : pyWs d = false) :
    pyStripL l = l := by
  obtain ⟨t, ht⟩ := reverse_head_of_getLast l d h2
  cases l with
  | nil => cases h1
  | cons x xs =>
    have hx : x = c := by simpa using h1
    subst hx
    unfold pyStripL
    rw [List.dropWhile_cons_of_neg (by simp [hc]), ht,
      List.dropWhile_cons_of_neg (by simp [hd]), ← ht, List.reverse_reverse]

theorem pyStripL_ws_cons (c : Char) (l : List Char) (h : pyWs c = true) :
    pyStripL (c :: l) = pyStripL l := by
  unfold pyStripL
  rw [List.dropWhile_cons_of_pos h]

theorem dropWhile_last_stop {α : Type} (p : α → Bool) (l : List α) (c : α)
    (hc : p c = false) : ∃ u, (l ++ [c]).dropWhile p = u ++ [c] := by
  induction l with
  | nil => exact ⟨[], by rw [List.nil_append, List.dropWhile_cons_of_neg (by simp [hc])]⟩
  | cons x xs ih =>
    by_cases hx : p x = true
    · rw [List.cons_append, List.dropWhile_cons_of_pos hx]
      exact ih
    · rw [List.cons_append, List.dropWhile_cons_of_neg hx]
      exact ⟨x :: xs, rfl⟩

theorem pyStripL_head (c : Char) (l : List Char) (hc : pyWs c = false) :
    ∃ u, pyStripL (c :: l) = c :: u := by
  unfold pyStripL
  rw [List.dropWhile_cons_of_neg (by simp [hc]), List.reverse_cons]
  obtain ⟨u, hu⟩ := dropWhile_last_stop pyWs l.reverse c hc
  rw [hu, List.reverse_append]
  exact ⟨u.reverse, by simp⟩

theorem startsWith_false_of_head_ne (p s : String) (c : Char)
    (hp : p.data.head? = some c) (hs : s.data.head? ≠ some c) :
    pyStartsWith p s = false := by
  rw [pyStartsWith]
  cases hpd : p.data with
  | nil => rw [hpd] at hp; cases hp
  | cons p0 ps =>
    have hp0 : p0 = c := by rw [hpd] at hp; simpa using hp
    cases hsd : s.data with
    | nil => rfl
    | cons s0 ss =>
      have hs0 : ¬(s0 = c) := fun h0 => hs (by rw [hsd, h0]; rfl)
      rw [hp0]
      have hb : (c == s0) = false :=
        beq_eq_false_iff_ne.mpr (fun h0 => hs0 h0.symm)
      show ((c == s0) && List.isPrefixOf ps ss) = false
      rw [hb, Bool.false_and]

/-! ## Codec lemmas: the scanners -/

theorem searchKw_cons (kw : List Char) (c : Char) (cs : List Char) :
    searchKw kw (c :: cs) =
      match matchKwAt kw (c :: cs) with
      | some g => some g
      | none => searchKw kw cs := rfl

theorem searchRealmOpen_cons (c : Char) (cs : List Char) :
    searchRealmOpen (c :: cs) =
      match matchRealmOpenAt (c :: cs) with
      | some g => some g
      | none => searchRealmOpen cs := rfl

theorem matchKwAt_nonws (kw l : List Char) (h : ∀ c ∈ l, pyWs c = false) :
    matchKwAt kw l = none := by
  unfold matchKwAt
  by_cases hp : kw.isPrefixOf l = true
  · have hall : ∀ c ∈ l.drop kw.length, pyWs c = false :=
      fun c hc => h c (List.mem_of_mem_drop hc)
    simp [hp, takeWhile_nil_of_all_neg _ _ hall]
  · simp [hp]

theorem searchKw_nonws (kw l : List Char) (h : ∀ c ∈ l, pyWs c = false) :
    searchKw kw l = none := by
  induction l with
  | nil => rfl
  | cons c cs ih =>
    rw [searchKw_cons, matchKwAt_nonws kw _ h]
    exact ih (fun x hx => h x (by simp [hx]))

theorem matchKwAt_head_ne (k0 : Char) (kw : List Char) (c : Char)
    (cs : List Char) (h : (k0 == c) = false) :
    matchKwAt (k0 :: kw) (c :: cs) = none := by
  unfold matchKwAt
  have hp : List.isPrefixOf (k0 :: kw) (c :: cs) = false := by
    show ((k0 == c) && List.isPrefixOf kw cs) = false
    rw [h, Bool.false_and]
  simp [hp]

theorem searchKw_skip (kw pre suf : List Char)
    (hpre : ∀ i, i < pre.length → matchKwAt kw (pre.drop i ++ suf) = none)
    (hsuf : searchKw kw suf = none) :
    searchKw kw (pre ++ suf) = none := by
  induction pre with
  | nil => simpa using hsuf
  | cons c cs ih =>
    rw [List.cons_append, searchKw_cons]
    have h0 : matchKwAt kw (c :: (cs ++ suf)) = none := by
      have := hpre 0 (by simp)
      simpa using this
    rw [h0]
    exact ih (fun i hi => by
      have := hpre (i + 1) (by simpa using hi)
      simpa using this)

theorem matchKwAt_hit (kw kd : List Char) (hne : kd ≠ [])
    (hkd : ∀ c ∈ kd, pyWs c = false) :
    matchKwAt kw (kw ++ ' ' :: '=' :: ' ' :: kd) = some kd := by
  unfold matchKwAt
  have hp : kw.isPrefixOf (kw ++ ' ' :: '=' :: ' ' :: kd) = true := by
    induction kw with
    | nil => rfl
    | cons x xs ih =>
      show ((x == x) && _) = true
      simp [ih]
  have hdrop : (kw ++ ' ' :: '=' :: ' ' :: kd).drop kw.length
      = ' ' :: '=' :: ' ' :: kd := List.drop_left kw _
  rw [hp]
  simp only [if_true]
  rw [hdrop]
  rw [List.takeWhile_cons_of_pos (by decide),
    List.takeWhile_cons_of_neg (by decide)]
  simp only [List.isEmpty_cons, Bool.false_eq_true, if_false]
  rw [List.dropWhile_cons_of_pos (by decide),
    List.dropWhile_cons_of_neg (by decide)]
  show (if (List.takeWhile pyWs (' ' :: kd)).isEmpty = true then none
      else
        if (List.takeWhile (fun c => !pyWs c)
            (List.dropWhile pyWs (' ' :: kd))).isEmpty = true then none
        else some (List.takeWhile (fun c => !pyWs c)
          (List.dropWhile pyWs (' ' :: kd)))) = some kd
  rw [List.takeWhile_cons_of_pos (by decide),
    takeWhile_nil_of_all_neg pyWs kd hkd]
  simp only [List.isEmpty_cons, Bool.false_eq_true, if_false]
  rw [List.dropWhile_cons_of_pos (by decide),
    dropWhile_id_of_all_neg pyWs kd hkd,
    takeWhile_id_of_all_pos _ kd (fun x hx => by simp [hkd x hx])]
  simp [List.isEmpty_iff, hne]

theorem searchKw_hit (k0 : Char) (kw kd : List Char) (hne : kd ≠ [])
    (hkd : ∀ c ∈ kd, pyWs c = false) :
    searchKw (k0 :: kw) ((k0 :: kw) ++ ' ' :: '=' :: ' ' :: kd) = some kd := by
  rw [List.cons_append, searchKw_cons]
  have := matchKwAt_hit (k0 :: kw) kd hne hkd
  rw [List.cons_append] at this
  rw [this]

theorem matchRealmOpenAt_ws_head (c : Char) (l : List Char)
    (h : pyWs c = true) : matchRealmOpenAt (c :: l) = none := by
  unfold matchRealmOpenAt
  rw [List.takeWhile_cons_of_neg (by simp [h])]
  simp

theorem matchRealmOpenAt_nonws (l : List Char)
    (h : ∀ c ∈ l, pyWs c = false) : matchRealmOpenAt l = none := by
  unfold matchRealmOpenAt
  rw [dropWhile_nil_of_all_pos _ l (fun x hx => by simp [h x hx])]
  simp

theorem searchRealmOpen_nonws (l : List Char)
    (h : ∀ c ∈ l, pyWs c = false) : searchRealmOpen l = none := by
  induction l with
  | nil => rfl
  | cons c cs ih =>
    rw [searchRealmOpen_cons, matchRealmOpenAt_nonws _ h]
    exact ih (fun x hx => h x (by simp [hx]))

theorem matchRealmOpenAt_word (w kd : List Char) (hwne : w ≠ [])
    (hw : ∀ c ∈ w, pyWs c = false) (hkd : ∀ c ∈ kd, pyWs c = false)
    (hbr : kd.head? ≠ some '{') :
    matchRealmOpenAt (w ++ ' ' :: '=' :: ' ' :: kd) = none := by
  simp only [matchRealmOpenAt]
  rw [takeWhile_append_all _ w _ (fun x hx => by simp [hw x hx]),
    List.takeWhile_cons_of_neg (by decide), List.append_nil]
  have hwe : w.isEmpty = false := by
    cases w with
    | nil => exact absurd rfl hwne
    | cons x xs => rfl
  rw [hwe]
  simp only [Bool.false_eq_true, if_false]
  rw [dropWhile_append_all _ w _ (fun x hx => by simp [hw x hx]),
    List.dropWhile_cons_of_neg (by decide)]
  rw [List.takeWhile_cons_of_pos (by decide),
    List.takeWhile_cons_of_neg (by decide)]
  simp only [List.isEmpty_cons, Bool.false_eq_true, if_false]
  rw [List.dropWhile_cons_of_pos (by decide),
    List.dropWhile_cons_of_neg (by decide)]
  show (if (List.takeWhile pyWs (' ' :: kd)).isEmpty = true then none
      else
        match List.dropWhile pyWs (' ' :: kd) with
        | '\x7b' :: _ => some w
        | _ => none) = none
  rw [List.takeWhile_cons_of_pos (by decide),
    takeWhile_nil_of_all_neg pyWs kd hkd]
  simp only [List.isEmpty_cons, Bool.false_eq_true, if_false]
  rw [List.dropWhile_cons_of_pos (by decide),
    dropWhile_id_of_all_neg pyWs kd hkd]
  cases hk : kd with
  | nil => rfl
  | cons c0 rest =>
    have hc0 : ¬(c0 = '\x7b') := fun h0 => hbr (by rw [hk, h0]; rfl)
    split
    · rename_i heq
      injection heq with h1 h2
      exact absurd h1 hc0
    · rfl

theorem matchRealmOpenAt_eq_sp (kd : List Char)
    (hkd : ∀ c ∈ kd, pyWs c = false) :
    matchRealmOpenAt ('=' :: ' ' :: kd) = none := by
  simp only [matchRealmOpenAt]
  rw [List.takeWhile_cons_of_pos (by decide),
    List.takeWhile_cons_of_neg (by decide)]
  simp only [List.isEmpty_cons, Bool.false_eq_true, if_false]
  rw [List.dropWhile_cons_of_pos (by decide),
    List.dropWhile_cons_of_neg (by decide)]
  rw [List.takeWhile_cons_of_pos (by decide),
    takeWhile_nil_of_all_neg pyWs kd hkd]
  simp only [List.isEmpty_cons, Bool.false_eq_true, if_false]
  rw [List.dropWhile_cons_of_pos (by decide),
    dropWhile_id_of_all_neg pyWs kd hkd]
  cases hk : kd with
  | nil => rfl
  | cons c0 rest =>
    by_cases hc0 : c0 = '='
    · subst hc0
      show (if (List.takeWhile pyWs rest).isEmpty = true then none
          else
            match List.dropWhile pyWs rest with
            | '\x7b' :: _ => some ['=']
            | _ => none) = none
      rw [takeWhile_nil_of_all_neg pyWs rest
        (fun x hx => hkd x (by rw [hk]; simp [hx]))]
      rfl
    · split
      · rename_i heq
        injection heq with h1 h2
        exact absurd h1 hc0
      · rfl

theorem matchRealmOpenAt_open (w : List Char) (hwne : w ≠ [])
    (hw : ∀ c ∈ w, pyWs c = false) :
    matchRealmOpenAt (w ++ ' ' :: '=' :: ' ' :: '\x7b' :: []) = some w := by
  simp only [matchRealmOpenAt]
  rw [takeWhile_append_all _ w _ (fun x hx => by simp [hw x hx]),
    List.takeWhile_cons_of_neg (by decide), List.append_nil]
  have hwe : w.isEmpty = false := by
    cases w with
    | nil => exact absurd rfl hwne
    | cons x xs => rfl
  rw [hwe]
  simp only [Bool.false_eq_true, if_false]
  rw [dropWhile_append_all _ w _ (fun x hx => by simp [hw x hx]),
    List.dropWhile_cons_of_neg (by decide)]
  rw [List.takeWhile_cons_of_pos (by decide),
    List.takeWhile_cons_of_neg (by decide)]
  simp only [List.isEmpty_cons, Bool.false_eq_true, if_false]
  rw [List.dropWhile_cons_of_pos (by decide),
    List.dropWhile_cons_of_neg (by decide)]
  rfl

theorem searchRealmOpen_line_none (w kd : List Char)
    (hw : ∀ c ∈ w, pyWs c = false) (hkd : ∀ c ∈ kd, pyWs c = false)
    (hbr : kd.head? ≠ some '\x7b') :
    searchRealmOpen (w ++ ' ' :: '=' :: ' ' :: kd) = none := by
  induction w with
  | nil =>
    rw [List.nil_append, searchRealmOpen_cons,
      matchRealmOpenAt_ws_head ' ' _ (by decide)]
    show searchRealmOpen ('=' :: ' ' :: kd) = none
    rw [searchRealmOpen_cons, matchRealmOpenAt_eq_sp kd hkd]
    show searchRealmOpen (' ' :: kd) = none
    rw [searchRealmOpen_cons, matchRealmOpenAt_ws_head ' ' _ (by decide)]
    show searchRealmOpen kd = none
    exact searchRealmOpen_nonws kd hkd
  | cons c cs ih =>
    rw [List.cons_append, searchRealmOpen_cons]
    have hword := matchRealmOpenAt_word (c :: cs) kd (by simp) hw hkd hbr
    rw [List.cons_append] at hword
    rw [hword]
    show searchRealmOpen (cs ++ ' ' :: '=' :: ' ' :: kd) = none
    exact ih (fun x hx => hw x (by simp [hx]))

theorem searchRealmOpen_open (w : List Char) (hwne : w ≠ [])
    (hw : ∀ c ∈ w, pyWs c = false) :
    searchRealmOpen (w ++ ' ' :: '=' :: ' ' :: '\x7b' :: []) = some w := by
  cases w with
  | nil => exact absurd rfl hwne
  | cons c cs =>
    rw [List.cons_append, searchRealmOpen_cons]
    have hopen := matchRealmOpenAt_open (c :: cs) (by simp) hw
    rw [List.cons_append] at hopen
    rw [hopen]

theorem head?_data_append_left (a b : String) (c : Char)
    (h : a.data.head? = some c) : (a ++ b).data.head? = some c := by
  rw [string_data_append]
  cases had : a.data with
  | nil => rw [had] at h; cases h
  | cons x xs =>
    rw [had] at h
    simpa using h

/-! ## Codec lemmas: single lines of the rendered file -/

theorem pyStripL_ws_prefix (wsp l : List Char) (h : ∀ c ∈ wsp, pyWs c = true) :
    pyStripL (wsp ++ l) = pyStripL l := by
  induction wsp with
  | nil => rfl
  | cons x xs ih =>
    rw [List.cons_append, pyStripL_ws_cons x _ (h x (by simp))]
    exact ih (fun y hy => h y (by simp [hy]))

theorem pyStrip_eq_mk (s : String) (wsp core : List Char) (c d : Char)
    (hsd : s.data = wsp ++ core) (hws : ∀ x ∈ wsp, pyWs x = true)
    (hh : core.head? = some c) (hc : pyWs c = false)
    (hl : core.getLast? = some d) (hd : pyWs d = false) :
    pyStrip s = String.mk core := by
  rw [pyStrip, hsd, pyStripL_ws_prefix wsp core hws,
    pyStripL_no_strip core c d hh hc hl hd]

theorem parseLine_inert (st : ParseState) (ln : String)
    (h0 : st.in_realms = false)
    (h1 : pyStartsWith "[realms]" (pyStrip ln) = false)
    (h2 : pyStartsWith "[" (pyStrip ln) = false)
    (h3 : pyStartsWith "includedir" (pyStrip ln) = false) :
    parseLine st ln = st := by
  simp [parseLine, h1, h2, h3, h0]

theorem parseLine_fields (st : ParseState) (ln : String)
    (h0 : st.in_realms = false)
    (h1 : pyStartsWith "[realms]" (pyStrip ln) = false) :
    (parseLine st ln).in_realms = false ∧
      (parseLine st ln).in_realm = st.in_realm ∧
      (parseLine st ln).realm_kdcs = st.realm_kdcs ∧
      (parseLine st ln).realm_adminservers = st.realm_adminservers := by
  by_cases h2 : pyStartsWith "[" (pyStrip ln) = true
  · simp [parseLine, h1, h2]
  · by_cases h3 : pyStartsWith "includedir" (pyStrip ln) = true
    · cases hsi : searchInc ln.data <;> simp [parseLine, h1, h2, h3, hsi, h0]
    · simp [parseLine, h1, h2, h3, h0]

theorem foldl_fields (lines : List String) (st : ParseState)
    (h0 : st.in_realms = false)
    (hall : ∀ ln ∈ lines, pyStartsWith "[realms]" (pyStrip ln) = false) :
    (lines.foldl parseLine st).in_realms = false ∧
      (lines.foldl parseLine st).in_realm = st.in_realm ∧
      (lines.foldl parseLine st).realm_kdcs = st.realm_kdcs ∧
      (lines.foldl parseLine st).realm_adminservers = st.realm_adminservers := by
  induction lines generalizing st with
  | nil => exact ⟨h0, rfl, rfl, rfl⟩
  | cons ln rest ih =>
    obtain ⟨f1, f2, f3, f4⟩ := parseLine_fields st ln h0 (hall ln (by simp))
    obtain ⟨g1, g2, g3, g4⟩ :=
      ih (parseLine st ln) f1 (fun x hx => hall x (by simp [hx]))
    rw [List.foldl_cons]
    exact ⟨g1, g2.trans f2, g3.trans f3, g4.trans f4⟩

theorem parseLine_section_off (st : ParseState) (ln : String)
    (h1 : pyStartsWith "[realms]" (pyStrip ln) = false)
    (h2 : pyStartsWith "[" (pyStrip ln) = true) :
    parseLine st ln = { st with in_realms := false } := by
  simp [parseLine, h1, h2]

theorem parseLine_realms_on (st : ParseState) (ln : String)
    (h1 : pyStartsWith "[realms]" (pyStrip ln) = true) :
    parseLine st ln = { st with in_realms := true } := by
  simp [parseLine, h1]

theorem parseLine_empty (st : ParseState) : parseLine st "" = st := by
  by_cases h : st.in_realms = true <;>
    simp [parseLine, h, show pyStrip "" = "" from rfl,
      show pyStartsWith "[realms]" "" = false from rfl,
      show pyStartsWith "[" "" = false from rfl,
      show pyStartsWith "includedir" "" = false from rfl]

theorem parseLine_close (st : ParseState) (hst : st.in_realms = true) :
    parseLine st " \x7d" = st := by
  have e1 : pyStrip " \x7d" = "\x7d" := by decide
  simp only [parseLine, e1,
    show pyStartsWith "[realms]" "\x7d" = false from by decide,
    show pyStartsWith "[" "\x7d" = false from by decide,
    show pyStartsWith "includedir" "\x7d" = false from by decide,
    hst,
    show searchRealmOpen "\x7d".data = none from by decide,
    show searchKw "kdc".data "\x7d".data = none from by decide,
    show searchKw "admin_server".data "\x7d".data = none from by decide]
  cases st.in_realm <;> simp


theorem string_data_eq_nil_absurd (N : String) (h : N ≠ "") (h0 : N.data = []) :
    False := by
  apply h
  have hk : N = String.mk N.data := rfl
  rw [hk, h0]

theorem data_of_ne_empty (N : String) (h : N ≠ "") :
    ∃ c l, N.data = c :: l := by
  cases hd : N.data with
  | nil => exact absurd hd (fun h0 => string_data_eq_nil_absurd N h h0)
  | cons c l => exact ⟨c, l, rfl⟩

theorem parseLine_open (st : ParseState) (N : String)
    (hst : st.in_realms = true) (hN : goodName N) :
    parseLine st (" " ++ N ++ " = \x7b") = { st with in_realm := some N } := by
  obtain ⟨hne, hnws, hupper, hbr⟩ := hN
  obtain ⟨n0, nrest, hnd⟩ := data_of_ne_empty N hne
  have hn0ws : pyWs n0 = false := hnws n0 (by rw [hnd]; simp)
  have hn0br : ¬(n0 = '[') := fun h0 => hbr (by rw [hnd, h0]; rfl)
  have hn0i : ¬(n0 = 'i') := by
    intro h0
    have hfix := upper_fixed N hupper n0 (by rw [hnd]; simp)
    rw [h0] at hfix
    exact absurd hfix (by decide)
  have hsd : (" " ++ N ++ " = \x7b").data = [' '] ++ (N.data ++ " = \x7b".data) := rfl
  have hstrip : pyStrip (" " ++ N ++ " = \x7b")
      = String.mk (N.data ++ " = \x7b".data) := by
    apply pyStrip_eq_mk _ [' '] _ n0 '\x7b' hsd
    · intro x hx
      simp at hx
      rw [hx]
      rfl
    · rw [hnd]; rfl
    · exact hn0ws
    · rw [List.getLast?_append_of_ne_nil _ (by decide)]
      decide
    · decide
  have hh : (pyStrip (" " ++ N ++ " = \x7b")).data.head? = some n0 := by
    rw [hstrip]
    show (N.data ++ " = \x7b".data).head? = some n0
    rw [hnd]
    rfl
  have hb1 : pyStartsWith "[realms]" (pyStrip (" " ++ N ++ " = \x7b")) = false := by
    apply startsWith_false_of_head_ne _ _ '[' (by decide)
    rw [hh]
    intro hx
    injection hx with h1
    exact hn0br h1
  have hb2 : pyStartsWith "[" (pyStrip (" " ++ N ++ " = \x7b")) = false := by
    apply startsWith_false_of_head_ne _ _ '[' (by decide)
    rw [hh]
    intro hx
    injection hx with h1
    exact hn0br h1
  have hb3 : pyStartsWith "includedir" (pyStrip (" " ++ N ++ " = \x7b")) = false := by
    apply startsWith_false_of_head_ne _ _ 'i' (by decide)
    rw [hh]
    intro hx
    injection hx with h1
    exact hn0i h1
  have hsne : ¬(pyStrip (" " ++ N ++ " = \x7b") = "") := by
    rw [hstrip]
    intro h0
    have h1 := congrArg String.data h0
    rw [show (String.mk (N.data ++ " = \x7b".data)).data
        = N.data ++ " = \x7b".data from rfl, hnd] at h1
    cases h1
  have hsearch : searchRealmOpen (pyStrip (" " ++ N ++ " = \x7b")).data
      = some N.data := by
    rw [hstrip]
    show searchRealmOpen (N.data ++ ' ' :: '=' :: ' ' :: '\x7b' :: []) = some N.data
    exact searchRealmOpen_open N.data (by rw [hnd]; simp) hnws
  simp [parseLine, hb1, hb2, hb3, hst, hsne, hsearch]

theorem parseLine_kdc (st : ParseState) (r k : String)
    (hst : st.in_realms = true) (hir : st.in_realm = some r)
    (hk : goodHost k) :
    parseLine st ("  kdc = " ++ k) =
      { st with realm_kdcs := ddInsertK st.realm_kdcs r k } := by
  obtain ⟨hkne, hkws, hkbr⟩ := hk
  obtain ⟨k0, krest, hkd⟩ := data_of_ne_empty k hkne
  obtain ⟨d, hgl, hglws⟩ := getLast_nonws k hkne hkws
  have hsd : ("  kdc = " ++ k).data = [' ', ' '] ++ ("kdc = ".data ++ k.data) := rfl
  have hstrip : pyStrip ("  kdc = " ++ k) = String.mk ("kdc = ".data ++ k.data) := by
    apply pyStrip_eq_mk _ [' ', ' '] _ 'k' d hsd
    · intro x hx
      simp at hx
      rw [hx]
      rfl
    · rfl
    · decide
    · rw [List.getLast?_append_of_ne_nil _ (by rw [hkd]; simp)]
      exact hgl
    · exact hglws
  have hh : (pyStrip ("  kdc = " ++ k)).data.head? = some 'k' := by
    rw [hstrip]
    rfl
  have hb1 : pyStartsWith "[realms]" (pyStrip ("  kdc = " ++ k)) = false := by
    apply startsWith_false_of_head_ne _ _ '[' (by decide)
    rw [hh]
    intro hx
    injection hx with h1
    exact absurd h1 (by decide)
  have hb2 : pyStartsWith "[" (pyStrip ("  kdc = " ++ k)) = false := by
    apply startsWith_false_of_head_ne _ _ '[' (by decide)
    rw [hh]
    intro hx
    injection hx with h1
    exact absurd h1 (by decide)
  have hb3 : pyStartsWith "includedir" (pyStrip ("  kdc = " ++ k)) = false := by
    apply startsWith_false_of_head_ne _ _ 'i' (by decide)
    rw [hh]
    intro hx
    injection hx with h1
    exact absurd h1 (by decide)
  have hsne : ¬(pyStrip ("  kdc = " ++ k) = "") := by
    rw [hstrip]
    intro h0
    have h1 := congrArg String.data h0
    cases h1
  have hro : searchRealmOpen (pyStrip ("  kdc = " ++ k)).data = none := by
    rw [hstrip]
    show searchRealmOpen ("kdc".data ++ ' ' :: '=' :: ' ' :: k.data) = none
    exact searchRealmOpen_line_none "kdc".data k.data (by decide) hkws hkbr
  have hkdc : searchKw "kdc".data (pyStrip ("  kdc = " ++ k)).data = some k.data := by
    rw [hstrip]
    show searchKw ('k' :: "dc".data) (('k' :: "dc".data) ++ ' ' :: '=' :: ' ' :: k.data)
      = some k.data
    exact searchKw_hit 'k' "dc".data k.data (by rw [hkd]; simp) hkws
  have hadm : searchKw "admin_server".data (pyStrip ("  kdc = " ++ k)).data
      = none := by
    rw [hstrip]
    show searchKw "admin_server".data ("kdc = ".data ++ k.data) = none
    apply searchKw_skip
    · intro i hi
      have h6 : ("kdc = ".data).length = 6 := rfl
      rw [h6] at hi
      interval_cases i <;>
        exact matchKwAt_head_ne 'a' "dmin_server".data _ _ (by decide)
    · exact searchKw_nonws _ _ hkws
  simp [parseLine, hb1, hb2, hb3, hst, hsne, hro, hir, hkdc, hadm]

theorem parseLine_admin (st : ParseState) (r a : String)
    (hst : st.in_realms = true) (hir : st.in_realm = some r)
    (ha : goodHost a) :
    parseLine st ("  admin_server = " ++ a) =
      { st with realm_adminservers := dictSet st.realm_adminservers r (some a) } := by
  obtain ⟨hane, haws, habr⟩ := ha
  obtain ⟨a0, arest, had⟩ := data_of_ne_empty a hane
  obtain ⟨d, hgl, hglws⟩ := getLast_nonws a hane haws
  have hsd : ("  admin_server = " ++ a).data
      = [' ', ' '] ++ ("admin_server = ".data ++ a.data) := rfl
  have hstrip : pyStrip ("  admin_server = " ++ a)
      = String.mk ("admin_server = ".data ++ a.data) := by
    apply pyStrip_eq_mk _ [' ', ' '] _ 'a' d hsd
    · intro x hx
      simp at hx
      rw [hx]
      rfl
    · rfl
    · decide
    · rw [List.getLast?_append_of_ne_nil _ (by rw [had]; simp)]
      exact hgl
    · exact hglws
  have hh : (pyStrip ("  admin_server = " ++ a)).data.head? = some 'a' := by
    rw [hstrip]
    rfl
  have hb1 : pyStartsWith "[realms]" (pyStrip ("  admin_server = " ++ a)) = false := by
    apply startsWith_false_of_head_ne _ _ '[' (by decide)
    rw [hh]
    intro hx
    injection hx with h1
    exact absurd h1 (by decide)
  have hb2 : pyStartsWith "[" (pyStrip ("  admin_server = " ++ a)) = false := by
    apply startsWith_false_of_head_ne _ _ '[' (by decide)
    rw [hh]
    intro hx
    injection hx with h1
    exact absurd h1 (by decide)
  have hb3 : pyStartsWith "includedir" (pyStrip ("  admin_server = " ++ a)) = false := by
    apply startsWith_false_of_head_ne _ _ 'i' (by decide)
    rw [hh]
    intro hx
    injection hx with h1
    exact absurd h1 (by decide)
  have hsne : ¬(pyStrip ("  admin_server = " ++ a) = "") := by
    rw [hstrip]
    intro h0
    have h1 := congrArg String.data h0
    cases h1
  have hro : searchRealmOpen (pyStrip ("  admin_server = " ++ a)).data = none := by
    rw [hstrip]
    show searchRealmOpen ("admin_server".data ++ ' ' :: '=' :: ' ' :: a.data) = none
    exact searchRealmOpen_line_none "admin_server".data a.data (by decide) haws habr
  have hkdc : searchKw "kdc".data (pyStrip ("  admin_server = " ++ a)).data
      = none := by
    rw [hstrip]
    show searchKw "kdc".data ("admin_server = ".data ++ a.data) = none
    apply searchKw_skip
    · intro i hi
      have h15 : ("admin_server = ".data).length = 15 := rfl
      rw [h15] at hi
      interval_cases i <;>
        exact matchKwAt_head_ne 'k' "dc".data _ _ (by decide)
    · exact searchKw_nonws _ _ haws
  have hadm : searchKw "admin_server".data (pyStrip ("  admin_server = " ++ a)).data
      = some a.data := by
    rw [hstrip]
    show searchKw ('a' :: "dmin_server".data)
      (('a' :: "dmin_server".data) ++ ' ' :: '=' :: ' ' :: a.data) = some a.data
    exact searchKw_hit 'a' "dmin_server".data a.data (by rw [had]; simp) haws
  simp [parseLine, hb1, hb2, hb3, hst, hsne, hro, hir, hkdc, hadm]



/-! ## Codec lemmas: folding one realm block -/

theorem ddInsertK_fresh (l : List (String × Finset String)) (key x : String)
    (h : assocFind l key = none) : ddInsertK l key x = l ++ [(key, {x})] := by
  induction l with
  | nil => rfl
  | cons hd tl ih =>
    obtain ⟨k1, v⟩ := hd
    by_cases hk : k1 = key
    · simp [assocFind, hk] at h
    · simp [assocFind, hk] at h
      simp [ddInsertK, hk, ih h]

theorem ddInsertK_append_found (l : List (String × Finset String)) (key x : String)
    (S : Finset String) (h : assocFind l key = none) :
    ddInsertK (l ++ [(key, S)]) key x = l ++ [(key, insert x S)] := by
  induction l with
  | nil => simp [ddInsertK]
  | cons hd tl ih =>
    obtain ⟨k1, v⟩ := hd
    by_cases hk : k1 = key
    · simp [assocFind, hk] at h
    · simp [assocFind, hk] at h
      simp [ddInsertK, hk, ih h]

theorem foldl_insert_toFinset (ks : List String) (S : Finset String) :
    ks.foldl (fun s k => insert k s) S = ks.toFinset ∪ S := by
  induction ks generalizing S with
  | nil => simp
  | cons k rest ih =>
    rw [List.foldl_cons, ih]
    ext x
    simp [List.toFinset_cons]

theorem ddInsertK_fold (ks : List String) (l : List (String × Finset String))
    (key : String) (S : Finset String) (h : assocFind l key = none) :
    ks.foldl (fun acc x => ddInsertK acc key x) (l ++ [(key, S)])
      = l ++ [(key, ks.foldl (fun s k => insert k s) S)] := by
  induction ks generalizing S with
  | nil => rfl
  | cons x rest ih =>
    rw [List.foldl_cons, ddInsertK_append_found l key x S h, List.foldl_cons]
    exact ih (insert x S)

theorem fold_kdc_lines (ks : List String) (st : ParseState) (r : String)
    (hst : st.in_realms = true) (hir : st.in_realm = some r)
    (hgood : ∀ k ∈ ks, goodHost k) :
    (ks.map (fun k => "  kdc = " ++ k)).foldl parseLine st
      = { st with realm_kdcs :=
          ks.foldl (fun acc k => ddInsertK acc r k) st.realm_kdcs } := by
  induction ks generalizing st with
  | nil => rfl
  | cons k rest ih =>
    rw [List.map_cons, List.foldl_cons,
      parseLine_kdc st r k hst hir (hgood k (by simp))]
    rw [ih { st with realm_kdcs := ddInsertK st.realm_kdcs r k } hst hir
      (fun x hx => hgood x (by simp [hx]))]
    rfl

theorem parse_block (st : ParseState) (N : String) (K : Finset String)
    (a : String) (hst : st.in_realms = true) (hN : goodName N) (hKne : K ≠ ∅)
    (hhosts : ∀ k ∈ K, goodHost k) (hA : goodHost a)
    (hfresh : assocFind st.realm_kdcs N = none) :
    (renderRealmBlock N K (some a)).foldl parseLine st
      = { st with
          in_realm := some N
          realm_kdcs := st.realm_kdcs ++ [(N, K)]
          realm_adminservers := dictSet st.realm_adminservers N (some a) } := by
  have hsortne : K.sort (· ≤ ·) ≠ [] := by
    intro h0
    apply hKne
    have h1 := Finset.sort_toFinset (· ≤ ·) K
    rw [h0] at h1
    simpa using h1.symm
  obtain ⟨k0, krest, hks⟩ : ∃ k0 krest, K.sort (· ≤ ·) = k0 :: krest := by
    cases hx : K.sort (· ≤ ·) with
    | nil => exact absurd hx hsortne
    | cons x xs => exact ⟨x, xs, rfl⟩
  have hfoldK : (k0 :: krest).foldl (fun acc k => ddInsertK acc N k) st.realm_kdcs
      = st.realm_kdcs ++ [(N, K)] := by
    rw [List.foldl_cons, ddInsertK_fresh st.realm_kdcs N k0 hfresh,
      ddInsertK_fold krest st.realm_kdcs N {k0} hfresh,
      foldl_insert_toFinset]
    have hUK : krest.toFinset ∪ {k0} = K := by
      have h1 := Finset.sort_toFinset (· ≤ ·) K
      rw [hks] at h1
      rw [← h1]
      ext x
      simp [List.toFinset_cons]
      tauto
    rw [hUK]
  rw [renderRealmBlock, show formatAdmin (some a) = a from rfl]
  rw [List.foldl_cons, parseLine_open st N hst hN, List.foldl_append]
  rw [fold_kdc_lines (K.sort (· ≤ ·)) { st with in_realm := some N } N hst rfl
    (fun k hk => hhosts k ((Finset.mem_sort (α := String) (· ≤ ·)).mp hk))]
  rw [hks, hfoldK]
  show parseLine (parseLine
      { st with in_realm := some N, realm_kdcs := st.realm_kdcs ++ [(N, K)] }
      ("  admin_server = " ++ a)) " \x7d" = _
  rw [parseLine_admin
      { st with in_realm := some N, realm_kdcs := st.realm_kdcs ++ [(N, K)] }
      N a hst rfl hA]
  exact parseLine_close
      { st with
          in_realm := some N
          realm_kdcs := st.realm_kdcs ++ [(N, K)]
          realm_adminservers := dictSet st.realm_adminservers N (some a) } hst



theorem parse_realms (rs : List (String × Finset String))
    (admins : List (String × Option String)) (st : ParseState) (L : List String)
    (h : renderRealms admins rs = .ok L)
    (hst : st.in_realms = true)
    (hgood : ∀ p ∈ rs, goodName p.1 ∧ ∀ k ∈ p.2, goodHost k)
    (hadm : ∀ p ∈ rs, p.2 ≠ ∅ →
      ∃ a, assocFind admins (pyUpper p.1) = some (some a) ∧ goodHost a)
    (hfresh : ∀ p ∈ rs, p.2 ≠ ∅ → assocFind st.realm_kdcs p.1 = none)
    (hnd : (rs.map Prod.fst).Nodup) :
    ∃ ir, L.foldl parseLine st =
      { st with
          in_realm := ir
          realm_kdcs := st.realm_kdcs ++ rs.filter (fun p => decide (p.2 ≠ ∅))
          realm_adminservers := rs.foldl
            (fun acc p => if p.2 = ∅ then acc
              else dictSet acc p.1 ((assocFind admins (pyUpper p.1)).getD none))
            st.realm_adminservers } := by
  induction rs generalizing st L with
  | nil =>
    refine ⟨st.in_realm, ?_⟩
    have hL : L = [] := by
      simp only [renderRealms] at h
      exact (Except.ok.injEq _ _).mp h |>.symm
    subst hL
    simp
  | cons p rest ih =>
    obtain ⟨N, K⟩ := p
    have hnd2 : (rest.map Prod.fst).Nodup := by
      rw [List.map_cons] at hnd
      exact (List.nodup_cons.mp hnd).2
    by_cases hK : K = ∅
    · simp only [renderRealms, if_pos hK] at h
      obtain ⟨ir, hir⟩ := ih st L h hst
        (fun q hq => hgood q (by simp [hq]))
        (fun q hq => hadm q (by simp [hq]))
        (fun q hq => hfresh q (by simp [hq])) hnd2
      refine ⟨ir, ?_⟩
      rw [hir]
      simp [List.filter_cons, hK]
    · simp only [renderRealms, if_neg hK] at h
      obtain ⟨a, ha, hA⟩ := hadm (N, K) (by simp) hK
      rw [ha] at h
      cases hrr : renderRealms admins rest with
      | error e =>
        rw [hrr] at h
        simp at h
      | ok tl =>
        rw [hrr] at h
        simp only [Except.ok.injEq] at h
        subst h
        obtain ⟨hN, hhosts⟩ := hgood (N, K) (by simp)
        have hupp : pyUpper N = N := hN.2.2.1
        have hst2 : (renderRealmBlock (pyUpper N) K (some a)).foldl parseLine st
            = { st with
                in_realm := some (pyUpper N)
                realm_kdcs := st.realm_kdcs ++ [(pyUpper N, K)]
                realm_adminservers :=
                  dictSet st.realm_adminservers (pyUpper N) (some a) } :=
          parse_block st (pyUpper N) K a hst (by rw [hupp]; exact hN) hK
            (fun k hk => hhosts k hk) hA
            (by rw [hupp]; exact hfresh (N, K) (by simp) hK)
        have ha2 : assocFind admins (pyUpper N) = some (some a) := ha
        have hNmem : N ∉ rest.map Prod.fst := by
          rw [List.map_cons] at hnd
          exact (List.nodup_cons.mp hnd).1
        obtain ⟨ir, hir⟩ := ih
          { st with
              in_realm := some N
              realm_kdcs := st.realm_kdcs ++ [(N, K)]
              realm_adminservers := dictSet st.realm_adminservers N (some a) }
          tl hrr hst
          (fun q hq => hgood q (by simp [hq]))
          (fun q hq => hadm q (by simp [hq]))
          (fun q hq hqne => by
            show assocFind (st.realm_kdcs ++ [(N, K)]) q.1 = none
            rw [assocFind_append_single, hfresh q (by simp [hq]) hqne]
            have hne : ¬(N = q.1) := fun h0 =>
              hNmem (h0 ▸ (List.mem_map.mpr ⟨q, hq, rfl⟩))
            simp [hne]) hnd2
        refine ⟨ir, ?_⟩
        show List.foldl parseLine st
            (renderRealmBlock (pyUpper N) K (some a) ++ tl) = _
        rw [List.foldl_append, hst2, hupp, hir]
        simp [List.filter_cons, hK, ha2, List.append_assoc]


theorem not_realms_head (s : String) (c : Char) (l : List Char)
    (hdat : s.data = c :: l) (hws : pyWs c = false) (hbr : ¬(c = '[')) :
    pyStartsWith "[realms]" (pyStrip s) = false := by
  obtain ⟨u, hu⟩ := pyStripL_head c l hws
  apply startsWith_false_of_head_ne _ _ '[' (by decide)
  rw [pyStrip, hdat, hu]
  intro h0
  exact hbr (by simpa using h0)

theorem not_realms_sp_head (s : String) (c : Char) (l : List Char)
    (hdat : s.data = ' ' :: c :: l) (hws : pyWs c = false) (hbr : ¬(c = '[')) :
    pyStartsWith "[realms]" (pyStrip s) = false := by
  obtain ⟨u, hu⟩ := pyStripL_head c l hws
  apply startsWith_false_of_head_ne _ _ '[' (by decide)
  rw [pyStrip, hdat, pyStripL_ws_cons ' ' _ (by decide), hu]
  intro h0
  exact hbr (by simpa using h0)

theorem inc_line_not_realms (d : String) :
    pyStartsWith "[realms]" (pyStrip ("includedir " ++ d)) = false := by
  apply not_realms_head _ 'i' ("ncludedir ".data ++ d.data)
  · rw [string_data_append]
    rfl
  · decide
  · decide

theorem domain_lines_not_realms (rs : List (String × Finset String))
    (hgood : ∀ p ∈ rs, goodName p.1) :
    ∀ ln ∈ renderDomainRealms rs,
      pyStartsWith "[realms]" (pyStrip ln) = false := by
  induction rs with
  | nil => intro ln h; simp [renderDomainRealms] at h
  | cons p rest ih =>
    obtain ⟨N, K⟩ := p
    intro ln hln
    by_cases hK : K = ∅
    · simp only [renderDomainRealms, if_pos hK] at hln
      exact ih (fun q hq => hgood q (by simp [hq])) ln hln
    · simp only [renderDomainRealms, if_neg hK, List.mem_cons] at hln
      have hN : goodName ((N, K) : String × Finset String).1 :=
        hgood (N, K) (by simp)
      obtain ⟨hne, hnws, hupper, hbr0⟩ := hN
      rcases hln with h1 | h2 | h3
      · subst h1
        apply not_realms_sp_head _ '.'
          ((pyLower N).data ++ (" = " ++ pyUpper N).data)
        · simp only [string_data_append, List.append_assoc]
          rfl
        · decide
        · decide
      · subst h2
        obtain ⟨n0, nrest, hnd0⟩ := data_of_ne_empty N hne
        have hn0ws : pyWs n0 = false := hnws n0 (by rw [hnd0]; simp)
        have hn0br : ¬(n0 = '[') := fun h0 => hbr0 (by rw [hnd0, h0]; rfl)
        obtain ⟨hlws, hlbr⟩ := toLower_keeps n0 hn0ws hn0br
        apply not_realms_sp_head _ (Char.toLower n0)
          (nrest.map Char.toLower ++ (" = " ++ pyUpper N).data)
        · simp only [string_data_append, List.append_assoc, pyLower, hnd0]
          rfl
        · exact hlws
        · exact hlbr
      · exact ih (fun q hq => hgood q (by simp [hq])) ln h3

theorem header_fold (st : ParseState) (h0 : st.in_realms = false) :
    headerCommentLines.foldl parseLine st = st := by
  rw [headerCommentLines]
  rw [List.foldl_cons, parseLine_inert st _ h0 (by decide) (by decide) (by decide)]
  rw [List.foldl_cons, parseLine_inert st _ h0 (by decide) (by decide) (by decide)]
  rw [List.foldl_cons, parseLine_inert st _ h0 (by decide) (by decide) (by decide)]
  rw [List.foldl_cons, parseLine_empty, List.foldl_nil]

theorem boiler_fold (st : ParseState) (h0 : st.in_realms = false) :
    boilerplateLines.foldl parseLine st = { st with in_realms := true } := by
  have he : ({ st with in_realms := false } : ParseState) = st := by
    rw [← h0]
  rw [boilerplateLines]
  rw [List.foldl_cons, parseLine_empty]
  rw [List.foldl_cons, parseLine_section_off st _ (by decide) (by decide), he]
  rw [List.foldl_cons, parseLine_inert st _ h0 (by decide) (by decide) (by decide)]
  rw [List.foldl_cons, parseLine_inert st _ h0 (by decide) (by decide) (by decide)]
  rw [List.foldl_cons, parseLine_inert st _ h0 (by decide) (by decide) (by decide)]
  rw [List.foldl_cons, parseLine_empty]
  rw [List.foldl_cons, parseLine_section_off st _ (by decide) (by decide), he]
  rw [List.foldl_cons, parseLine_inert st _ h0 (by decide) (by decide) (by decide)]
  rw [List.foldl_cons, parseLine_inert st _ h0 (by decide) (by decide) (by decide)]
  rw [List.foldl_cons, parseLine_inert st _ h0 (by decide) (by decide) (by decide)]
  rw [List.foldl_cons, parseLine_inert st _ h0 (by decide) (by decide) (by decide)]
  rw [List.foldl_cons, parseLine_inert st _ h0 (by decide) (by decide) (by decide)]
  rw [List.foldl_cons, parseLine_inert st _ h0 (by decide) (by decide) (by decide)]
  rw [List.foldl_cons, parseLine_empty]
  rw [List.foldl_cons, parseLine_realms_on st _ (by decide), List.foldl_nil]

theorem assocFind_none_of_not_mem {α : Type} (l : List (String × α)) (r : String)
    (h : r ∉ l.map Prod.fst) : assocFind l r = none := by
  induction l with
  | nil => rfl
  | cons p rest ih =>
    obtain ⟨k, v⟩ := p
    have hk : ¬(k = r) := fun h0 => h (by simp [h0])
    simp only [assocFind, if_neg hk]
    exact ih (fun h0 => h (by simp [h0]))

theorem assocFind_mem {α : Type} (l : List (String × α)) (r : String) (w : α)
    (h : assocFind l r = some w) : (r, w) ∈ l := by
  induction l with
  | nil => simp [assocFind] at h
  | cons p rest ih =>
    obtain ⟨k, v⟩ := p
    by_cases hk : k = r
    · subst hk
      simp [assocFind] at h
      subst h
      simp
    · simp only [assocFind, if_neg hk] at h
      simp [ih h]

theorem assocFind_filter_getD (rs : List (String × Finset String)) (r : String)
    (hnd : (rs.map Prod.fst).Nodup) :
    (assocFind (rs.filter (fun p => decide (p.2 ≠ ∅))) r).getD ∅
      = (assocFind rs r).getD ∅ := by
  induction rs with
  | nil => rfl
  | cons p rest ih =>
    obtain ⟨k, v⟩ := p
    rw [List.map_cons] at hnd
    have hknotin : k ∉ rest.map Prod.fst := (List.nodup_cons.mp hnd).1
    have hnd2 : (rest.map Prod.fst).Nodup := (List.nodup_cons.mp hnd).2
    by_cases hv : v = ∅
    · subst hv
      rw [List.filter_cons_of_neg (by simp)]
      by_cases hk : k = r
      · subst hk
        have hrest : assocFind rest k = none := assocFind_none_of_not_mem rest k hknotin
        have hfilt : assocFind (rest.filter (fun p => decide (p.2 ≠ ∅))) k = none := by
          apply assocFind_none_of_not_mem
          intro h0
          obtain ⟨q, hq, hq1⟩ := List.mem_map.mp h0
          exact hknotin (List.mem_map.mpr ⟨q, List.mem_of_mem_filter hq, hq1⟩)
        rw [hfilt]
        simp [assocFind]
      · rw [ih hnd2]
        simp [assocFind, hk]
    · rw [List.filter_cons_of_pos (by simp [hv])]
      by_cases hk : k = r
      · subst hk
        simp [assocFind]
      · simp only [assocFind, if_neg hk]
        exact ih hnd2

theorem admin_fold_find (rs : List (String × Finset String))
    (admins : List (String × Option String)) (r : String)
    (acc : List (String × Option String))
    (hnd : (rs.map Prod.fst).Nodup) :
    assocFind (rs.foldl
        (fun acc p => if p.2 = ∅ then acc
          else dictSet acc p.1 ((assocFind admins (pyUpper p.1)).getD none)) acc) r
      = if ∃ p ∈ rs, p.1 = r ∧ p.2 ≠ ∅
        then some ((assocFind admins (pyUpper r)).getD none)
        else assocFind acc r := by
  induction rs generalizing acc with
  | nil => simp
  | cons p rest ih =>
    obtain ⟨k, v⟩ := p
    rw [List.map_cons] at hnd
    have hknotin : k ∉ rest.map Prod.fst := (List.nodup_cons.mp hnd).1
    have hnd2 : (rest.map Prod.fst).Nodup := (List.nodup_cons.mp hnd).2
    rw [List.foldl_cons]
    by_cases hv : v = ∅
    · simp only [if_pos hv]
      rw [ih acc hnd2]
      by_cases hex : ∃ p ∈ rest, p.1 = r ∧ p.2 ≠ ∅
      · rw [if_pos hex, if_pos (by
          obtain ⟨q, hq, hq1, hq2⟩ := hex
          exact ⟨q, by simp [hq], hq1, hq2⟩)]
      · rw [if_neg hex, if_neg (by
          intro h0
          obtain ⟨q, hq, hq1, hq2⟩ := h0
          rcases List.mem_cons.mp hq with h1 | h2
          · subst h1
            exact hq2 hv
          · exact hex ⟨q, h2, hq1, hq2⟩)]
    · simp only [if_neg hv]
      rw [ih _ hnd2]
      by_cases hkr : k = r
      · subst hkr
        have hnotex : ¬ ∃ p ∈ rest, p.1 = k ∧ p.2 ≠ ∅ := by
          intro h0
          obtain ⟨q, hq, hq1, hq2⟩ := h0
          exact hknotin (List.mem_map.mpr ⟨q, hq, hq1⟩)
        rw [if_neg hnotex, if_pos ⟨(k, v), by simp, rfl, hv⟩]
        exact assocFind_dictSet_self acc k _
      · by_cases hex : ∃ p ∈ rest, p.1 = r ∧ p.2 ≠ ∅
        · rw [if_pos hex, if_pos (by
            obtain ⟨q, hq, hq1, hq2⟩ := hex
            exact ⟨q, by simp [hq], hq1, hq2⟩)]
        · rw [if_neg hex, if_neg (by
            intro h0
            obtain ⟨q, hq, hq1, hq2⟩ := h0
            rcases List.mem_cons.mp hq with h1 | h2
            · subst h1
              exact hkr hq1
            · exact hex ⟨q, h2, hq1, hq2⟩)]
          exact assocFind_dictSet_ne acc k r _ (fun h0 => hkr h0.symm)

theorem renderRealms_ok (admins : List (String × Option String))
    (rs : List (String × Finset String))
    (h : ∀ p ∈ rs, p.2 ≠ ∅ → assocFind admins (pyUpper p.1) ≠ none) :
    ∃ L, renderRealms admins rs = .ok L := by
  induction rs with
  | nil => exact ⟨[], rfl⟩
  | cons p rest ih =>
    obtain ⟨N, K⟩ := p
    obtain ⟨tl, htl⟩ := ih (fun q hq => h q (by simp [hq]))
    by_cases hK : K = ∅
    · exact ⟨tl, by simp only [renderRealms, if_pos hK]; exact htl⟩
    · cases ha : assocFind admins (pyUpper N) with
      | none => exact absurd ha (h (N, K) (by simp) hK)
      | some adm =>
        refine ⟨renderRealmBlock (pyUpper N) K adm ++ tl, ?_⟩
        simp only [renderRealms, if_neg hK]
        rw [show assocFind admins (pyUpper ((N, K) : String × Finset String).1)
            = some adm from ha, htl]

theorem tail_fold (stF : ParseState) (lines : List String)
    (hall : ∀ ln ∈ lines, pyStartsWith "[realms]" (pyStrip ln) = false) :
    ((List.foldl parseLine stF ("" :: "[domain_realm]" :: lines)).realm_kdcs
        = stF.realm_kdcs) ∧
      ((List.foldl parseLine stF
          ("" :: "[domain_realm]" :: lines)).realm_adminservers
        = stF.realm_adminservers) := by
  rw [List.foldl_cons, parseLine_empty, List.foldl_cons,
    parseLine_section_off stF _ (by decide) (by decide)]
  obtain ⟨g1, g2, g3, g4⟩ :=
    foldl_fields lines { stF with in_realms := false } rfl hall
  exact ⟨g3, g4⟩

theorem load_of_save (cfg : Config) (confDir : String) (L : List String)
    (hL : renderRealms cfg.admin_servers cfg.realms = .ok L)
    (hgood : ∀ p ∈ cfg.realms, goodName p.1 ∧ ∀ k ∈ p.2, goodHost k)
    (hadm : ∀ p ∈ cfg.realms, p.2 ≠ ∅ →
      ∃ a, assocFind cfg.admin_servers (pyUpper p.1) = some (some a) ∧ goodHost a)
    (hnd : (cfg.realms.map Prod.fst).Nodup) :
    (load_lines (headerCommentLines ++
        ((((insert confDir cfg.includedirs).sort (· ≤ ·)).map
            (fun d => "includedir " ++ d)) ++
          (boilerplateLines ++
            (L ++ ("" :: "[domain_realm]" ::
              renderDomainRealms cfg.realms)))))).realm_kdcs
        = cfg.realms.filter (fun p => decide (p.2 ≠ ∅)) ∧
      (load_lines (headerCommentLines ++
        ((((insert confDir cfg.includedirs).sort (· ≤ ·)).map
            (fun d => "includedir " ++ d)) ++
          (boilerplateLines ++
            (L ++ ("" :: "[domain_realm]" ::
              renderDomainRealms cfg.realms)))))).realm_adminservers
        = cfg.realms.foldl
            (fun acc p => if p.2 = ∅ then acc
              else dictSet acc p.1
                ((assocFind cfg.admin_servers (pyUpper p.1)).getD none)) [] := by
  have hall : ∀ ln ∈ ((insert confDir cfg.includedirs).sort (· ≤ ·)).map
      (fun d => "includedir " ++ d),
      pyStartsWith "[realms]" (pyStrip ln) = false := by
    intro ln hln
    obtain ⟨d, hd, hdeq⟩ := List.mem_map.mp hln
    rw [← hdeq]
    exact inc_line_not_realms d
  have hdomall : ∀ ln ∈ renderDomainRealms cfg.realms,
      pyStartsWith "[realms]" (pyStrip ln) = false :=
    domain_lines_not_realms cfg.realms (fun p hp => (hgood p hp).1)
  obtain ⟨f1, f2, f3, f4⟩ := foldl_fields
    (((insert confDir cfg.includedirs).sort (· ≤ ·)).map
      (fun d => "includedir " ++ d))
    ⟨false, none, [], [], ∅⟩ rfl hall
  obtain ⟨ir, hir⟩ := parse_realms cfg.realms cfg.admin_servers
    { List.foldl parseLine (⟨false, none, [], [], ∅⟩ : ParseState)
        (((insert confDir cfg.includedirs).sort (· ≤ ·)).map
          (fun d => "includedir " ++ d)) with
      in_realms := true } L hL rfl hgood hadm
    (fun p hp hne => by
      show assocFind (List.foldl parseLine
          (⟨false, none, [], [], ∅⟩ : ParseState)
          (((insert confDir cfg.includedirs).sort (· ≤ ·)).map
            (fun d => "includedir " ++ d))).realm_kdcs p.1 = none
      rw [f3]
      rfl) hnd
  rw [load_lines]
  simp only [List.foldl_append]
  rw [header_fold ⟨false, none, [], [], ∅⟩ rfl]
  rw [boiler_fold _ f1]
  rw [hir]
  constructor
  · rw [(tail_fold _ _ hdomall).1]
    show (List.foldl parseLine (⟨false, none, [], [], ∅⟩ : ParseState)
        (((insert confDir cfg.includedirs).sort (· ≤ ·)).map
          (fun d => "includedir " ++ d))).realm_kdcs ++
        cfg.realms.filter (fun p => decide (p.2 ≠ ∅))
      = cfg.realms.filter (fun p => decide (p.2 ≠ ∅))
    rw [f3]
    rfl
  · rw [(tail_fold _ _ hdomall).2]
    show cfg.realms.foldl
        (fun acc p => if p.2 = ∅ then acc
          else dictSet acc p.1
            ((assocFind cfg.admin_servers (pyUpper p.1)).getD none))
        (List.foldl parseLine (⟨false, none, [], [], ∅⟩ : ParseState)
          (((insert confDir cfg.includedirs).sort (· ≤ ·)).map
            (fun d => "includedir " ++ d))).realm_adminservers
      = cfg.realms.foldl
          (fun acc p => if p.2 = ∅ then acc
            else dictSet acc p.1
              ((assocFind cfg.admin_servers (pyUpper p.1)).getD none)) []
    rw [f4]

/-! ## Claim C4 -/

/-- C4 (amended): round trip of the config codec under the strengthened
well-formedness C4WF (unique realm and admin keys; realm names nonempty,
whitespace-free, upper-case and not starting with a bracket; hosts nonempty,
whitespace-free and not starting with a brace; admin entries exactly for the
realms with non-empty KDC sets, the admin being one of the KDCs): save
succeeds, and loading what it wrote reproduces the realm-to-KDC-set mapping
as observed through the defaultdict (a missing realm reads as the empty set)
and the realm-to-admin-server mapping exactly. -/
theorem c4_roundtrip (cfg : Config) (confDir : String) (hwf : C4WF cfg) :
    ∃ t, save_lines cfg confDir = Except.ok t ∧
      (∀ r, (assocFind (load_lines t).realm_kdcs r).getD ∅
          = (assocFind cfg.realms r).getD ∅) ∧
      (∀ r, assocFind (load_lines t).realm_adminservers r
          = assocFind cfg.admin_servers r) := by
  obtain ⟨hnd1, hnd2, hgood, h4, h5⟩ := hwf
  have hadm : ∀ p ∈ cfg.realms, p.2 ≠ ∅ →
      ∃ a, assocFind cfg.admin_servers (pyUpper p.1) = some (some a) ∧
        goodHost a := by
    intro p hp hne
    obtain ⟨a, ha, hmem⟩ := (h4 p hp).1 hne
    have hup : pyUpper p.1 = p.1 := ((hgood p hp).1).2.2.1
    exact ⟨a, by rw [hup]; exact ha, (hgood p hp).2 a hmem⟩
  obtain ⟨L, hL⟩ := renderRealms_ok cfg.admin_servers cfg.realms
    (fun p hp hne => by
      obtain ⟨a, ha, _⟩ := hadm p hp hne
      rw [ha]
      simp)
  have hsave : save_lines cfg confDir = Except.ok
      (headerCommentLines ++
        ((insert confDir cfg.includedirs).sort (· ≤ ·)).map
          (fun d => "includedir " ++ d) ++
        boilerplateLines ++ L ++ ["", "[domain_realm]"] ++
        renderDomainRealms cfg.realms) := by
    simp only [save_lines, hL]
  have htgroup : headerCommentLines ++
        ((insert confDir cfg.includedirs).sort (· ≤ ·)).map
          (fun d => "includedir " ++ d) ++
        boilerplateLines ++ L ++ ["", "[domain_realm]"] ++
        renderDomainRealms cfg.realms
      = headerCommentLines ++
        ((((insert confDir cfg.includedirs).sort (· ≤ ·)).map
            (fun d => "includedir " ++ d)) ++
          (boilerplateLines ++
            (L ++ ("" :: "[domain_realm]" ::
              renderDomainRealms cfg.realms)))) := by
    simp [List.append_assoc]
  obtain ⟨hk, ha2⟩ := load_of_save cfg confDir L hL hgood hadm hnd1
  refine ⟨_, hsave, ?_, ?_⟩
  · intro r
    rw [htgroup, hk]
    exact assocFind_filter_getD cfg.realms r hnd1
  · intro r
    rw [htgroup, ha2]
    rw [admin_fold_find cfg.realms cfg.admin_servers r [] hnd1]
    by_cases hex : ∃ p ∈ cfg.realms, p.1 = r ∧ p.2 ≠ ∅
    · rw [if_pos hex]
      obtain ⟨p, hp, hp1, hp2⟩ := hex
      subst hp1
      obtain ⟨a, ha, _⟩ := hadm p hp hp2
      rw [ha]
      rw [show pyUpper p.1 = p.1 from ((hgood p hp).1).2.2.1] at ha
      rw [ha]
      rfl
    · rw [if_neg hex]
      cases hfind : assocFind cfg.admin_servers r with
      | none => rfl
      | some w =>
        exfalso
        have hmem := assocFind_mem cfg.admin_servers r w hfind
        obtain ⟨p, hp, hp1, hp2⟩ := h5 (r, w) hmem
        exact hex ⟨p, hp, hp1, hp2⟩

/-- C4 counterexample: the well-formedness stated by the claim (the admin
server is among the KDCs whenever the KDC set is non-empty) is not enough for
the round trip: a configuration holding an admin_servers entry for a realm
whose KDC set is empty satisfies that invariant, save skips the realm, and
the reloaded admin-server mapping lacks the entry the original had. -/
theorem c4_counterexample :
    AdminInv cfgDangling ∧
      roundtripAdmins cfgDangling "/d" = some [] ∧
      assocFind cfgDangling.admin_servers "R" = some none := by
  refine ⟨?_, ?_, by decide⟩
  · intro r hr
    exfalso
    have h0 : realmsOf cfgDangling r = ∅ := by
      show (assocFind cfgDangling.realms r).getD ∅ = ∅
      by_cases h : ("R" : String) = r
      · simp [cfgDangling, assocFind, h]
      · simp [cfgDangling, assocFind, h]
    rw [h0] at hr
    exact Finset.not_nonempty_empty hr
  · have hL : renderRealms cfgDangling.admin_servers cfgDangling.realms
        = .ok [] := by decide
    have hgoodD : ∀ p ∈ cfgDangling.realms,
        goodName p.1 ∧ ∀ k ∈ p.2, goodHost k := by
      intro p hp
      have hp2 : p = ("R", (∅ : Finset String)) := by
        simpa [cfgDangling] using hp
      subst hp2
      refine ⟨⟨by decide, by decide, by decide, by decide⟩, ?_⟩
      intro k hk
      exact absurd hk (by simp)
    have hadmD : ∀ p ∈ cfgDangling.realms, p.2 ≠ ∅ →
        ∃ a, assocFind cfgDangling.admin_servers (pyUpper p.1)
          = some (some a) ∧ goodHost a := by
      intro p hp hne
      have hp2 : p = ("R", (∅ : Finset String)) := by
        simpa [cfgDangling] using hp
      subst hp2
      exact absurd rfl hne
    obtain ⟨hk, ha2⟩ := load_of_save cfgDangling "/d" [] hL hgoodD hadmD
      (by decide)
    have hsaveD : save_lines cfgDangling "/d" = Except.ok
        (headerCommentLines ++
          ((insert "/d" cfgDangling.includedirs).sort (· ≤ ·)).map
            (fun d => "includedir " ++ d) ++
          boilerplateLines ++ [] ++ ["", "[domain_realm]"] ++
          renderDomainRealms cfgDangling.realms) := by
      simp only [save_lines, hL]
    have htg : headerCommentLines ++
          ((insert "/d" cfgDangling.includedirs).sort (· ≤ ·)).map
            (fun d => "includedir " ++ d) ++
          boilerplateLines ++ ([] : List String) ++ ["", "[domain_realm]"] ++
          renderDomainRealms cfgDangling.realms
        = headerCommentLines ++
          ((((insert "/d" cfgDangling.includedirs).sort (· ≤ ·)).map
              (fun d => "includedir " ++ d)) ++
            (boilerplateLines ++
              (([] : List String) ++ ("" :: "[domain_realm]" ::
                renderDomainRealms cfgDangling.realms)))) := by
      simp [List.append_assoc]
    rw [roundtripAdmins, hsaveD]
    rw [htg] at hsaveD ⊢
    simp only [ha2]
    rfl

theorem c4_roundtrip_witness :
    ∃ t, save_lines cfgR_A "/d" = Except.ok t ∧
      (∀ r, (assocFind (load_lines t).realm_kdcs r).getD ∅
          = (assocFind cfgR_A.realms r).getD ∅) ∧
      (∀ r, assocFind (load_lines t).realm_adminservers r
          = assocFind cfgR_A.admin_servers r) :=
  c4_roundtrip cfgR_A "/d"
    ⟨by decide, by decide,
      (fun p hp => by
        have hp2 : p = ("R", {"A"}) := by simpa [cfgR_A] using hp
        subst hp2
        refine ⟨⟨by decide, by decide, by decide, by decide⟩, ?_⟩
        intro k hk
        have hk2 : k = "A" := by simpa using hk
        subst hk2
        exact ⟨by decide, by decide, by decide⟩),
      (fun p hp => by
        have hp2 : p = ("R", {"A"}) := by simpa [cfgR_A] using hp
        subst hp2
        exact ⟨fun _ => ⟨"A", by decide, by decide⟩,
          fun h => absurd h (by decide)⟩),
      by decide⟩

end Txwinrm
